import Mathlib

/-!
# Verification of the meshlite Catmull-Clark subdivider

This file gives a shallow embedding of the half-edge mesh data model and of
the Catmull-Clark subdivision algorithm of `src/subdivide.rs`, and proves the
spec's testable properties about them.

Conventions of the embedding:
* 3D coordinates (`f32` in the source) are modelled as exact rationals (`Rat`).
* Entity ids are `Nat`, 1-based; `0` is the invalid sentinel (matching
  `VertexData::new` which initialises `generated_vertex_id: 0`).
* Fallible id lookups return `Option`; a Rust `unwrap` panic is modelled as
  `Option.none` propagating through the whole computation, so a failed lookup
  aborts the entire subdivision call.
* The `FnvHashMap` memoization caches are modelled as association lists that
  are only ever extended on a cache miss (the `entry(id).or_insert_with`
  pattern).
-/

set_option maxHeartbeats 1000000
set_option maxRecDepth 10000



/-- A 3D point with exact rational coordinates (models `cgmath::Point3<f32>`). -/
structure Point3 where
  x : Rat
  y : Rat
  z : Rat
deriving DecidableEq, Repr

def Point3.zero : Point3 := ⟨0, 0, 0⟩

instance : Inhabited Point3 := ⟨Point3.zero⟩

def Point3.add (p q : Point3) : Point3 := ⟨p.x + q.x, p.y + q.y, p.z + q.z⟩

instance : Add Point3 := ⟨Point3.add⟩

/-- Scalar multiplication of a point, componentwise. -/
def Point3.smul (p : Point3) (q : Rat) : Point3 := ⟨p.x * q, p.y * q, p.z * q⟩

/-- Componentwise division by a rational (division by zero yields zero,
the exact-arithmetic shadow of the `f32` NaN). -/
def Point3.divQ (p : Point3) (q : Rat) : Point3 := ⟨p.x / q, p.y / q, p.z / q⟩

/-- Centroid of a list of points: the sum divided by the length (models
`cgmath::EuclideanSpace::centroid`). -/
def Point3.centroid (ps : List Point3) : Point3 :=
  (ps.foldl Point3.add Point3.zero).divQ (ps.length : Rat)

/-- Midpoint of two points. -/
def Point3.mid (p q : Point3) : Point3 := (p + q).divQ 2

/-- Modelled from the spec (§3, mesh.rs is not in src/): a vertex stores a 3D
position and the set of ids of halfedges originating at it. -/
structure Vertex where
  position : Point3
  halfedges : List Nat
deriving DecidableEq, Repr

/-- Modelled from the spec (§3): a halfedge stores its origin vertex id, its
bounding face id, the next halfedge around that face, and its opposite/twin.
All fields start as the invalid id `0` (two-phase construction). -/
structure Halfedge where
  vertex : Nat
  face : Nat
  next : Nat
  opposite : Nat
deriving DecidableEq, Repr

/-- Modelled from the spec (§3): a face stores one representative boundary
halfedge id. -/
structure Face where
  halfedge : Nat
deriving DecidableEq, Repr

/-- Modelled from the spec (§3, §9, mesh.rs is not in src/): a mesh owns three
arenas of entities addressed by 1-based indices.  The tracked counts
(`vertex_count` and friends) are the arena sizes. -/
structure Mesh where
  vertices : List Vertex
  halfedges : List Halfedge
  faces : List Face
deriving DecidableEq, Repr

def Mesh.vertex_count (m : Mesh) : Nat := m.vertices.length
def Mesh.halfedge_count (m : Mesh) : Nat := m.halfedges.length
def Mesh.face_count (m : Mesh) : Nat := m.faces.length

/-- Modelled from the spec (§4.1): typed accessor failing with a not-found
signal (`none`) on an invalid id. -/
def Mesh.vertex (m : Mesh) (id : Nat) : Option Vertex :=
  if id = 0 then none else m.vertices.get? (id - 1)

/-- Modelled from the spec (§4.1): typed accessor for halfedges. -/
def Mesh.halfedge (m : Mesh) (id : Nat) : Option Halfedge :=
  if id = 0 then none else m.halfedges.get? (id - 1)

/-- Modelled from the spec (§4.1): typed accessor for faces. -/
def Mesh.face (m : Mesh) (id : Nat) : Option Face :=
  if id = 0 then none else m.faces.get? (id - 1)

/-- Modelled from the spec (§4.1): `add_vertex(pos)` appends a vertex with an
empty incidence set and returns its id. -/
def Mesh.add_vertex (m : Mesh) (p : Point3) : Mesh × Nat :=
  ({ m with vertices := m.vertices ++ [⟨p, []⟩] }, m.vertices.length + 1)

/-- Modelled from the spec (§4.1): `add_halfedge()` appends a halfedge with
all fields unset (invalid id 0), to be filled in afterwards. -/
def Mesh.add_halfedge (m : Mesh) : Mesh × Nat :=
  ({ m with halfedges := m.halfedges ++ [⟨0, 0, 0, 0⟩] }, m.halfedges.length + 1)

/-- Modelled from the spec (§4.1): `add_face()` appends a face with an unset
representative halfedge. -/
def Mesh.add_face (m : Mesh) : Mesh × Nat :=
  ({ m with faces := m.faces ++ [⟨0⟩] }, m.faces.length + 1)

/-- Mutable vertex accessor: applies an update at a live id, fails otherwise. -/
def Mesh.updVertex (m : Mesh) (id : Nat) (f : Vertex → Vertex) : Option Mesh :=
  (m.vertex id).map fun v => { m with vertices := m.vertices.set (id - 1) (f v) }

/-- Mutable halfedge accessor. -/
def Mesh.updHalfedge (m : Mesh) (id : Nat) (f : Halfedge → Halfedge) : Option Mesh :=
  (m.halfedge id).map fun he => { m with halfedges := m.halfedges.set (id - 1) (f he) }

/-- Mutable face accessor. -/
def Mesh.updFace (m : Mesh) (id : Nat) (f : Face → Face) : Option Mesh :=
  (m.face id).map fun fc => { m with faces := m.faces.set (id - 1) (f fc) }

/-- Modelled from the spec (§4.1): `link_halfedges(a,b)` sets `a.next = b`. -/
def Mesh.link_halfedges (m : Mesh) (a b : Nat) : Option Mesh :=
  m.updHalfedge a fun he => { he with next := b }

/-- `vertex_mut(vid).halfedges.insert(hid)`: set-insert a halfedge id into a
vertex's incidence set. -/
def Mesh.insertVertexHalfedge (m : Mesh) (vid hid : Nat) : Option Mesh :=
  m.updVertex vid fun v =>
    { v with halfedges := if hid ∈ v.halfedges then v.halfedges else v.halfedges ++ [hid] }

/-- `halfedge_mut(hid).face = fid`. -/
def Mesh.setHalfedgeFace (m : Mesh) (hid fid : Nat) : Option Mesh :=
  m.updHalfedge hid fun he => { he with face := fid }

/-- `halfedge_mut(hid).vertex = vid`. -/
def Mesh.setHalfedgeVertex (m : Mesh) (hid vid : Nat) : Option Mesh :=
  m.updHalfedge hid fun he => { he with vertex := vid }

/-- `face_mut(fid).halfedge = hid`. -/
def Mesh.setFaceHalfedge (m : Mesh) (fid hid : Nat) : Option Mesh :=
  m.updFace fid fun _ => ⟨hid⟩

/-- The list of live vertex ids, in storage order. -/
def vertexIdList (m : Mesh) : List Nat := (List.range m.vertices.length).map (· + 1)

/-- The list of live halfedge ids, in storage order. -/
def halfedgeIdList (m : Mesh) : List Nat := (List.range m.halfedges.length).map (· + 1)

/-- Modelled from the spec (§4.2): the all-faces traversal produces every live
face id in storage order. -/
def faceIdList (m : Mesh) : List Nat := (List.range m.faces.length).map (· + 1)

/-- Fuel-bounded body of the face-boundary traversal: follow `next` from
`cur` until `next` returns to `start`.  Running out of fuel (a `next` cycle
that never returns to the start) or a dead id is a failure. -/
def faceHalfedgeListAux (m : Mesh) (start : Nat) : Nat → Nat → Option (List Nat)
  | 0, _ => none
  | fuel + 1, cur =>
    match m.halfedge cur with
    | none => none
    | some he =>
      if he.next = start then some [cur]
      else (faceHalfedgeListAux m start fuel he.next).map (cur :: ·)

/-- Modelled from the spec (§4.2, `FaceHalfedgeIterator::into_vec`): the
materialized sequence of halfedges of one face boundary, starting at `start`
and following `next` until returning to `start`. -/
def faceHalfedgeList (m : Mesh) (start : Nat) : Option (List Nat) :=
  faceHalfedgeListAux m start (m.halfedges.length + 1) start

/-- Modelled from the spec (§4.1): `face_center(id)` is the centroid of the
positions of all vertices on that face's boundary cycle. -/
def Mesh.face_center (m : Mesh) (id : Nat) : Option Point3 := do
  let f ← m.face id
  let L ← faceHalfedgeList m f.halfedge
  let ps ← L.mapM fun h => do
    let he ← m.halfedge h
    let v ← m.vertex he.vertex
    pure v.position
  pure (Point3.centroid ps)

/-- Modelled from the spec (§4.1): `edge_center(id)` is the midpoint of the
two endpoint positions of the edge containing halfedge `id` (origin of `id`,
origin of `id.next`). -/
def Mesh.edge_center (m : Mesh) (id : Nat) : Option Point3 := do
  let he ← m.halfedge id
  let nhe ← m.halfedge he.next
  let v1 ← m.vertex he.vertex
  let v2 ← m.vertex nhe.vertex
  pure (Point3.mid v1.position v2.position)

/-- Modelled from the spec (§4.1, glossary): canonicalization of an edge maps
a halfedge id to the single representative id shared with its opposite (the
smaller of the two when the opposite is live, the id itself otherwise). -/
def Mesh.peek_same_halfedge (m : Mesh) (id : Nat) : Option Nat :=
  (m.halfedge id).map fun he =>
    match m.halfedge he.opposite with
    | some _ => min id he.opposite
    | none => id

/-- The canonical edge id of halfedge `h` as a total function. -/
def canonOf (m : Mesh) (h : Nat) : Nat := (m.peek_same_halfedge h).getD h

/-- The number of undirected edges of the mesh: the number of distinct
canonical edge ids. -/
def edgeCount (m : Mesh) : Nat := ((halfedgeIdList m).map (canonOf m)).dedup.length

/-! ## The subdivider state (`CatmullClarkSubdivider`) -/

/-- `FaceData` from subdivide.rs: the input face's center and the id of the
output vertex generated for it. -/
structure FaceData where
  average_of_points : Point3
  generated_vertex_id : Nat
deriving DecidableEq, Repr

/-- `EdgeData` from subdivide.rs: the edge's plain midpoint and the id of the
output vertex generated for it. -/
structure EdgeData where
  mid_point : Point3
  generated_vertex_id : Nat
deriving DecidableEq, Repr

/-- `VertexData` from subdivide.rs. -/
structure VertexData where
  generated_vertex_id : Nat
deriving DecidableEq, Repr

/-- Association-list lookup (models `FnvHashMap` access). -/
def alookup {α : Type} : List (Nat × α) → Nat → Option α
  | [], _ => none
  | p :: rest, k => if k = p.1 then some p.2 else alookup rest k

/-- The mutable state of `CatmullClarkSubdivider`: the three memoization
caches and the owned output mesh. -/
structure SubState where
  faceData : List (Nat × FaceData)
  edgeData : List (Nat × EdgeData)
  vertexData : List (Nat × VertexData)
  output : Mesh
deriving DecidableEq, Repr

/-- The initial subdivider state: empty caches, empty output mesh. -/
def initState : SubState := ⟨[], [], [], ⟨[], [], []⟩⟩

/-- `face_data_mut` from subdivide.rs: get-or-compute the face point of input
face `id`; on a miss, compute `face_center`, add it as a new output vertex,
and cache `{average_of_points, generated_vertex_id}`. -/
def face_data_mut (input : Mesh) (id : Nat) (s : SubState) : Option (FaceData × SubState) :=
  match alookup s.faceData id with
  | some d => some (d, s)
  | none =>
    (input.face_center id).map fun avg =>
      let r := s.output.add_vertex avg
      let d : FaceData := ⟨avg, r.2⟩
      (d, { s with faceData := (id, d) :: s.faceData, output := r.1 })

/-- `edge_data_mut` from subdivide.rs: canonicalize the halfedge id, then
get-or-compute the edge point: the centroid of the two adjacent face points
and the two endpoint positions; cache the plain midpoint alongside the
generated output-vertex id. -/
def edge_data_mut (input : Mesh) (id0 : Nat) (s : SubState) : Option (EdgeData × SubState) := do
  let id ← input.peek_same_halfedge id0
  match alookup s.edgeData id with
  | some d => pure (d, s)
  | none => do
    let mid ← input.edge_center id
    let he ← input.halfedge id
    let ohe ← input.halfedge he.opposite
    let nhe ← input.halfedge he.next
    let sv ← input.vertex he.vertex
    let tv ← input.vertex nhe.vertex
    let r1 ← face_data_mut input he.face s
    let r2 ← face_data_mut input ohe.face r1.2
    let c := Point3.centroid [r1.1.average_of_points, r2.1.average_of_points,
      sv.position, tv.position]
    let r := r2.2.output.add_vertex c
    let d : EdgeData := ⟨mid, r.2⟩
    pure (d, { r2.2 with edgeData := (id, d) :: r2.2.edgeData, output := r.1 })

/-- The loop body of `vertex_data_mut`: for each halfedge incident to the
vertex, collect the adjacent face's face-point value and the edge's midpoint
value into the two scratch sequences. -/
def collectVertexData (input : Mesh) :
    List Nat → List Point3 → List Point3 → SubState →
    Option (List Point3 × List Point3 × SubState)
  | [], fas, ems, s => some (fas, ems, s)
  | hid :: rest, fas, ems, s => do
    let he ← input.halfedge hid
    let r1 ← face_data_mut input he.face s
    let r2 ← edge_data_mut input hid r1.2
    collectVertexData input rest (fas ++ [r1.1.average_of_points])
      (ems ++ [r2.1.mid_point]) r2.2

/-- `vertex_data_mut` from subdivide.rs: get-or-compute the vertex point of
input vertex `id` by the interior Catmull-Clark rule
`(2*E + F + P*|n-3|) / n`. -/
def vertex_data_mut (input : Mesh) (id : Nat) (s : SubState) : Option (VertexData × SubState) :=
  match alookup s.vertexData id with
  | some d => some (d, s)
  | none => do
    let v ← input.vertex id
    let r ← collectVertexData input v.halfedges [] [] s
    let fas := r.1
    let ems := r.2.1
    let s1 := r.2.2
    let bury_center := Point3.centroid fas
    let average_of_edge := Point3.centroid ems
    let position := ((average_of_edge.smul 2 + bury_center)
      + v.position.smul ((((fas.length : Int) - 3).natAbs : Nat) : Rat)).divQ (fas.length : Rat)
    let radd := s1.output.add_vertex position
    let d : VertexData := ⟨radd.2⟩
    pure (d, { s1 with vertexData := (id, d) :: s1.vertexData, output := radd.1 })

/-- The body of the `for &(added_halfedge_id, added_vertex_id) in
added_halfedges` loop of `generate`: register the halfedge in its target
output vertex's incidence set, then assign its face and vertex fields. -/
def registerCorner (out : Mesh) (fid hid vid : Nat) : Option Mesh := do
  let o1 ← out.insertVertexHalfedge vid hid
  let o2 ← o1.setHalfedgeFace hid fid
  o2.setHalfedgeVertex hid vid

/-- Set the new face's representative halfedge and chain the four new
halfedges into a closed `next` cycle (the `link_halfedges` loop). -/
def wireQuad (out : Mesh) (fid h1 h2 h3 h4 : Nat) : Option Mesh := do
  let o1 ← out.setFaceHalfedge fid h1
  let o2 ← o1.link_halfedges h1 h2
  let o3 ← o2.link_halfedges h2 h3
  let o4 ← o3.link_halfedges h3 h4
  o4.link_halfedges h4 h1

/-- Create one new output face with four new halfedges targeting, in fixed
cyclic order, the vertices `[facePoint, e1, v, e2]`. -/
def addQuad (s : SubState) (v1 v2 v3 v4 : Nat) : Option SubState := do
  let rf := s.output.add_face
  let fid := rf.2
  let r1 := rf.1.add_halfedge
  let r2 := r1.1.add_halfedge
  let r3 := r2.1.add_halfedge
  let r4 := r3.1.add_halfedge
  let o1 ← registerCorner r4.1 fid r1.2 v1
  let o2 ← registerCorner o1 fid r2.2 v2
  let o3 ← registerCorner o2 fid r3.2 v3
  let o4 ← registerCorner o3 fid r4.2 v4
  let o5 ← wireQuad o4 fid r1.2 r2.2 r3.2 r4.2
  pure { s with output := o5 }

/-- One iteration of the inner loop of `generate`: for corner halfedge `h`
with successor `nh`, fetch the two edge points and the vertex point of the
far endpoint, then emit one new quad face `[facePoint, e1, v, e2]` with four
new halfedges chained into a `next` cycle. -/
def processCorner (input : Mesh) (face_vertex_id : Nat) (halfedge_id : Nat)
    (s : SubState) : Option SubState := do
  let he ← input.halfedge halfedge_id
  let nhe ← input.halfedge he.next
  let re1 ← edge_data_mut input halfedge_id s
  let re2 ← edge_data_mut input he.next re1.2
  let rv ← vertex_data_mut input nhe.vertex re2.2
  addQuad rv.2 face_vertex_id re1.1.generated_vertex_id
    rv.1.generated_vertex_id re2.1.generated_vertex_id

/-- The inner loop of `generate` over the materialized boundary halfedges of
one input face. -/
def processCorners (input : Mesh) (face_vertex_id : Nat) :
    List Nat → SubState → Option SubState
  | [], s => some s
  | hid :: rest, s => do
    let s' ← processCorner input face_vertex_id hid s
    processCorners input face_vertex_id rest s'

/-- One iteration of the outer loop of `generate`: get the face point, then
process every boundary corner of the face. -/
def processFace (input : Mesh) (face_id : Nat) (s : SubState) : Option SubState := do
  let rf ← face_data_mut input face_id s
  let f ← input.face face_id
  let L ← faceHalfedgeList input f.halfedge
  processCorners input rf.1.generated_vertex_id L rf.2

/-- The outer loop of `generate` over all input faces. -/
def processFaces (input : Mesh) : List Nat → SubState → Option SubState
  | [], s => some s
  | fid :: rest, s => do
    let s' ← processFace input fid s
    processFaces input rest s'

/-- `CatmullClarkSubdivider::generate`, including its final state.  The
capacity pre-reservation of `reserve_internal_memory` is a pure performance
hint and has no observable effect in the embedding. -/
def generateState (input : Mesh) : Option SubState :=
  processFaces input (faceIdList input) initState

/-- `CatmullClarkSubdivider::generate`: the produced output mesh, or `none`
if the computation aborted on a failed id lookup. -/
def generate (input : Mesh) : Option Mesh :=
  (generateState input).map SubState.output

/-- The `Subdivide` capability for `Mesh`. -/
def Mesh.subdivide (m : Mesh) : Option Mesh := generate m

/-! ## The §3 invariants -/

/-- `optP o p` holds when `o = some a` and `p a`; a failed lookup falsifies
the property. -/
def optP {α : Type} (o : Option α) (p : α → Prop) : Prop :=
  match o with
  | none => False
  | some a => p a

instance {α : Type} (o : Option α) (p : α → Prop) [inst : ∀ a, Decidable (p a)] :
    Decidable (optP o p) :=
  match o with
  | none => isFalse fun h => h
  | some a => inst a

/-- §3: every face has a live representative halfedge whose `next` walk
returns to the start, listing at least 3 pairwise distinct halfedges, each
live and bounding this face. -/
def FacesOk (m : Mesh) : Prop :=
  ∀ fid ∈ faceIdList m, optP (m.face fid) fun f =>
    optP (faceHalfedgeList m f.halfedge) fun L =>
      3 ≤ L.length ∧ L.Nodup ∧ ∀ h ∈ L, optP (m.halfedge h) fun he => he.face = fid

/-- §3: every live halfedge occurs on the boundary cycle of some face (the
face cycles cover the whole halfedge arena). -/
def Coverage (m : Mesh) : Prop :=
  ∀ h ∈ halfedgeIdList m, ∃ fid ∈ faceIdList m, optP (m.face fid) fun f =>
    optP (faceHalfedgeList m f.halfedge) fun L => h ∈ L

/-- §3: `opposite(opposite(h)) == h` with both lookups live. -/
def Involution (m : Mesh) : Prop :=
  ∀ h ∈ halfedgeIdList m, optP (m.halfedge h) fun he =>
    optP (m.halfedge he.opposite) fun ohe => ohe.opposite = h

/-- Every halfedge's origin vertex id is live. -/
def OriginsLive (m : Mesh) : Prop :=
  ∀ h ∈ halfedgeIdList m, optP (m.halfedge h) fun he => (m.vertex he.vertex).isSome = true

/-- §3: every vertex has a non-empty, duplicate-free incidence set and every
halfedge in it has that vertex as its origin. -/
def Incidence (m : Mesh) : Prop :=
  ∀ vid ∈ vertexIdList m, optP (m.vertex vid) fun v =>
    v.halfedges ≠ [] ∧ v.halfedges.Nodup ∧
      ∀ h ∈ v.halfedges, optP (m.halfedge h) fun he => he.vertex = vid

/-- The §3 input-mesh invariants as one predicate. -/
def Invariants (m : Mesh) : Prop :=
  FacesOk m ∧ Coverage m ∧ Involution m ∧ OriginsLive m ∧ Incidence m

/-- Every face's boundary cycle has exactly 4 halfedges. -/
def AllQuads (m : Mesh) : Prop :=
  ∀ fid ∈ faceIdList m, optP (m.face fid) fun f =>
    optP (faceHalfedgeList m f.halfedge) fun L => L.length = 4

instance (m : Mesh) : Decidable (FacesOk m) := by unfold FacesOk; infer_instance
instance (m : Mesh) : Decidable (Coverage m) := by unfold Coverage; infer_instance
instance (m : Mesh) : Decidable (Involution m) := by unfold Involution; infer_instance
instance (m : Mesh) : Decidable (OriginsLive m) := by unfold OriginsLive; infer_instance
instance (m : Mesh) : Decidable (Incidence m) := by unfold Incidence; infer_instance
instance (m : Mesh) : Decidable (Invariants m) := by unfold Invariants; infer_instance
instance (m : Mesh) : Decidable (AllQuads m) := by unfold AllQuads; infer_instance

/-! ## Concrete fixtures -/

/-- The single-triangle fixture of §8: 3 vertices, 1 face, 3 halfedges.  The
three boundary edges are realized as self-paired halfedges (each halfedge is
its own opposite), the only single-face encoding on which every id lookup of
the subdivider is live. -/
def triFixture : Mesh :=
  { vertices := [⟨⟨0,0,0⟩, [1]⟩, ⟨⟨1,0,0⟩, [2]⟩, ⟨⟨0,1,0⟩, [3]⟩]
    halfedges := [⟨1,1,2,1⟩, ⟨2,1,3,2⟩, ⟨3,1,1,3⟩]
    faces := [⟨1⟩] }

/-- A closed two-quad "pillow": two quad faces glued along all four edges
(4 vertices, 8 halfedges in 4 opposite pairs, 2 faces). -/
def pillowFixture : Mesh :=
  { vertices := [⟨⟨0,0,0⟩, [1,5]⟩, ⟨⟨1,0,0⟩, [2,8]⟩, ⟨⟨1,1,0⟩, [3,7]⟩, ⟨⟨0,1,0⟩, [4,6]⟩]
    halfedges := [⟨1,1,2,8⟩, ⟨2,1,3,7⟩, ⟨3,1,4,6⟩, ⟨4,1,1,5⟩,
                  ⟨1,2,6,4⟩, ⟨4,2,7,3⟩, ⟨3,2,8,2⟩, ⟨2,2,5,1⟩]
    faces := [⟨1⟩, ⟨5⟩] }

/-- A mesh whose single face has a dangling representative halfedge id. -/
def danglingFixture : Mesh :=
  { vertices := [⟨⟨0,0,0⟩, [1]⟩]
    halfedges := [⟨1,1,1,1⟩]
    faces := [⟨5⟩] }

/-- A mesh containing a vertex with an empty incidence set (zero valence). -/
def isolatedVertexFixture : Mesh :=
  { vertices := [⟨⟨7,0,0⟩, []⟩]
    halfedges := []
    faces := [] }

/-! ## Pure formula definitions used in the claim statements -/

/-- The bounding face id of a halfedge, as a total function. -/
def faceOfHalfedge (m : Mesh) (h : Nat) : Nat := ((m.halfedge h).map Halfedge.face).getD 0

/-- The face-point value of a face, as a total function. -/
def faceCenterOf (m : Mesh) (fid : Nat) : Point3 := (m.face_center fid).getD Point3.zero

/-- The raw edge midpoint of a halfedge, as a total function. -/
def edgeMidOf (m : Mesh) (h : Nat) : Point3 := (m.edge_center h).getD Point3.zero

/-- The position of a vertex, as a total function. -/
def posOf (m : Mesh) (vid : Nat) : Point3 := ((m.vertex vid).map Vertex.position).getD Point3.zero

/-- The interior Catmull-Clark vertex-point rule `(2*E + F + P*|n-3|)/n`
with `n` the valence, `F` the centroid of the face points of the faces bound
by the incident halfedges, `E` the centroid of the raw midpoints of the
incident halfedges' edges, and `P` the original position. -/
def vertexPointFormula (m : Mesh) (vid : Nat) : Point3 :=
  match m.vertex vid with
  | none => Point3.zero
  | some v =>
    let F := Point3.centroid (v.halfedges.map fun h => faceCenterOf m (faceOfHalfedge m h))
    let E := Point3.centroid (v.halfedges.map fun h => edgeMidOf m (canonOf m h))
    let n := v.halfedges.length
    ((E.smul 2 + F) + v.position.smul ((((n : Int) - 3).natAbs : Nat) : Rat)).divQ (n : Rat)

/-- The edge-point rule for a canonical halfedge `c`: the centroid of the two
adjacent face points and the two endpoint positions. -/
def edgePointFormula (m : Mesh) (c : Nat) : Point3 :=
  match m.halfedge c with
  | none => Point3.zero
  | some he =>
    Point3.centroid [faceCenterOf m he.face,
      faceCenterOf m (faceOfHalfedge m he.opposite),
      posOf m he.vertex,
      ((m.halfedge he.next).map fun nhe => posOf m nhe.vertex).getD Point3.zero]

/-! ## Subdivider state invariants -/

/-- Soundness of the three memoization caches: face keys are live input face
ids whose cached value is the face center; edge keys are canonical fixed
points of live input halfedge ids whose cached value is the edge midpoint;
vertex keys are live input vertex ids; every cached generated id is a live
output vertex; and the output mesh holds exactly one vertex per cache entry. -/
structure CacheOK (input : Mesh) (s : SubState) : Prop where
  face_sound : ∀ p ∈ s.faceData, p.1 ∈ faceIdList input ∧
    input.face_center p.1 = some p.2.average_of_points ∧
    1 ≤ p.2.generated_vertex_id ∧ p.2.generated_vertex_id ≤ s.output.vertices.length
  face_nodup : (s.faceData.map Prod.fst).Nodup
  edge_sound : ∀ p ∈ s.edgeData, input.peek_same_halfedge p.1 = some p.1 ∧
    p.1 ∈ halfedgeIdList input ∧ input.edge_center p.1 = some p.2.mid_point ∧
    1 ≤ p.2.generated_vertex_id ∧ p.2.generated_vertex_id ≤ s.output.vertices.length
  edge_nodup : (s.edgeData.map Prod.fst).Nodup
  vertex_sound : ∀ p ∈ s.vertexData, p.1 ∈ vertexIdList input ∧
    1 ≤ p.2.generated_vertex_id ∧ p.2.generated_vertex_id ≤ s.output.vertices.length
  vertex_nodup : (s.vertexData.map Prod.fst).Nodup
  count : s.output.vertices.length =
    s.faceData.length + s.edgeData.length + s.vertexData.length

/-- The subdivider state only ever grows: cache entries persist, existing
output halfedges and faces are never modified by a later step that we take
between corners, and arena sizes are monotone. -/
structure SExt (s s' : SubState) : Prop where
  fd : ∀ k d, alookup s.faceData k = some d → alookup s'.faceData k = some d
  ed : ∀ k d, alookup s.edgeData k = some d → alookup s'.edgeData k = some d
  vd : ∀ k d, alookup s.vertexData k = some d → alookup s'.vertexData k = some d
  hes : ∀ i he, s.output.halfedge i = some he → s'.output.halfedge i = some he
  fcs : ∀ i f, s.output.face i = some f → s'.output.face i = some f
  vlen : s.output.vertices.length ≤ s'.output.vertices.length
  hlen : s.output.halfedges.length ≤ s'.output.halfedges.length
  flen : s.output.faces.length ≤ s'.output.faces.length

/-- The output mesh grew only by fresh vertices with empty incidence sets. -/
def NewVerticesEmpty (m m' : Mesh) : Prop :=
  ∃ l, m'.vertices = m.vertices ++ l ∧ ∀ v ∈ l, v.halfedges = []

/-! ## Output-mesh invariants -/

/-- The face `fid` of `m` is a well-formed generated quad: its representative
halfedge starts a closed 4-cycle of pairwise distinct live halfedges all of
whose `face` fields are `fid`. -/
def QuadOK (m : Mesh) (fid : Nat) : Prop :=
  ∃ f he1 he2 he3 he4, m.face fid = some f ∧
    m.halfedge f.halfedge = some he1 ∧ m.halfedge he1.next = some he2 ∧
    m.halfedge he2.next = some he3 ∧ m.halfedge he3.next = some he4 ∧
    he4.next = f.halfedge ∧
    he1.face = fid ∧ he2.face = fid ∧ he3.face = fid ∧ he4.face = fid ∧
    he1.next ≠ f.halfedge ∧ he2.next ≠ f.halfedge ∧ he3.next ≠ f.halfedge ∧
    he1.next ≠ he2.next ∧ he1.next ≠ he3.next ∧ he2.next ≠ he3.next

/-- Invariants of the output mesh during generation: every live face is a
generated quad, incidence sets are consistent with origin fields, `opposite`
fields are never assigned (all `0`), and every halfedge's origin vertex id is
live. -/
structure OutMeshOK (m : Mesh) : Prop where
  quad : ∀ fid ∈ faceIdList m, QuadOK m fid
  inc : ∀ vid v, m.vertex vid = some v → ∀ h ∈ v.halfedges,
    ∃ he, m.halfedge h = some he ∧ he.vertex = vid
  opp0 : ∀ i he, m.halfedge i = some he → he.opposite = 0
  hvlive : ∀ i he, m.halfedge i = some he → 1 ≤ he.vertex ∧ he.vertex ≤ m.vertices.length

/-- The materialized boundary list of a face, as a total function. -/
def boundaryOf (m : Mesh) (fid : Nat) : List Nat :=
  ((m.face fid).bind fun f => faceHalfedgeList m f.halfedge).getD []

/-- The boundary degree of a face. -/
def boundaryLen (m : Mesh) (fid : Nat) : Nat := (boundaryOf m fid).length

/-- The origin vertex id of a halfedge, as a total function. -/
def originOf (m : Mesh) (h : Nat) : Nat := ((m.halfedge h).map Halfedge.vertex).getD 0

/-- Weak cache soundness: every entry of the face cache stores a value that
`face_center` actually computed.  Unlike full `Invariants`-based reasoning,
this is preserved by every subdivider operation on arbitrary input meshes,
because the face cache is only ever extended by `face_data_mut` itself. -/
def FaceCacheSound (input : Mesh) (s : SubState) : Prop :=
  ∀ p ∈ s.faceData, input.face_center p.1 = some p.2.average_of_points

/-! ## Basic lemmas: ids, lookups and single-entity updates -/

lemma mem_vertexIdList {m : Mesh} {id : Nat} :
    id ∈ vertexIdList m ↔ 1 ≤ id ∧ id ≤ m.vertices.length := by
  simp only [vertexIdList, List.mem_map, List.mem_range]
  constructor
  · rintro ⟨a, ha, rfl⟩; omega
  · rintro ⟨h1, h2⟩; exact ⟨id - 1, by omega, by omega⟩

lemma mem_halfedgeIdList {m : Mesh} {id : Nat} :
    id ∈ halfedgeIdList m ↔ 1 ≤ id ∧ id ≤ m.halfedges.length := by
  simp only [halfedgeIdList, List.mem_map, List.mem_range]
  constructor
  · rintro ⟨a, ha, rfl⟩; omega
  · rintro ⟨h1, h2⟩; exact ⟨id - 1, by omega, by omega⟩

lemma mem_faceIdList {m : Mesh} {id : Nat} :
    id ∈ faceIdList m ↔ 1 ≤ id ∧ id ≤ m.faces.length := by
  simp only [faceIdList, List.mem_map, List.mem_range]
  constructor
  · rintro ⟨a, ha, rfl⟩; omega
  · rintro ⟨h1, h2⟩; exact ⟨id - 1, by omega, by omega⟩

lemma vertexIdList_nodup (m : Mesh) : (vertexIdList m).Nodup :=
  (List.nodup_range _).map (fun _ _ => by omega)

lemma halfedgeIdList_nodup (m : Mesh) : (halfedgeIdList m).Nodup :=
  (List.nodup_range _).map (fun _ _ => by omega)

lemma faceIdList_nodup (m : Mesh) : (faceIdList m).Nodup :=
  (List.nodup_range _).map (fun _ _ => by omega)

lemma vertex_some_of_mem {m : Mesh} {id : Nat} (h : id ∈ vertexIdList m) :
    ∃ v, m.vertex id = some v := by
  rw [mem_vertexIdList] at h
  have h0 : id ≠ 0 := by omega
  have hlt : id - 1 < m.vertices.length := by omega
  rw [Mesh.vertex, if_neg h0]
  exact ⟨_, List.get?_eq_get hlt⟩

lemma halfedge_some_of_mem {m : Mesh} {id : Nat} (h : id ∈ halfedgeIdList m) :
    ∃ he, m.halfedge id = some he := by
  rw [mem_halfedgeIdList] at h
  have h0 : id ≠ 0 := by omega
  have hlt : id - 1 < m.halfedges.length := by omega
  rw [Mesh.halfedge, if_neg h0]
  exact ⟨_, List.get?_eq_get hlt⟩

lemma face_some_of_mem {m : Mesh} {id : Nat} (h : id ∈ faceIdList m) :
    ∃ f, m.face id = some f := by
  rw [mem_faceIdList] at h
  have h0 : id ≠ 0 := by omega
  have hlt : id - 1 < m.faces.length := by omega
  rw [Mesh.face, if_neg h0]
  exact ⟨_, List.get?_eq_get hlt⟩

lemma mem_of_vertex_some {m : Mesh} {id : Nat} {v : Vertex} (h : m.vertex id = some v) :
    id ∈ vertexIdList m := by
  rw [mem_vertexIdList]
  simp only [Mesh.vertex] at h
  by_cases h0 : id = 0
  · simp [h0] at h
  · simp only [h0, if_false] at h
    obtain ⟨hlt, -⟩ := List.get?_eq_some.mp h
    omega

lemma mem_of_halfedge_some {m : Mesh} {id : Nat} {he : Halfedge} (h : m.halfedge id = some he) :
    id ∈ halfedgeIdList m := by
  rw [mem_halfedgeIdList]
  simp only [Mesh.halfedge] at h
  by_cases h0 : id = 0
  · simp [h0] at h
  · simp only [h0, if_false] at h
    obtain ⟨hlt, -⟩ := List.get?_eq_some.mp h
    omega

lemma mem_of_face_some {m : Mesh} {id : Nat} {f : Face} (h : m.face id = some f) :
    id ∈ faceIdList m := by
  rw [mem_faceIdList]
  simp only [Mesh.face] at h
  by_cases h0 : id = 0
  · simp [h0] at h
  · simp only [h0, if_false] at h
    obtain ⟨hlt, -⟩ := List.get?_eq_some.mp h
    omega

lemma vertex_zero (m : Mesh) : m.vertex 0 = none := by simp [Mesh.vertex]
lemma halfedge_zero (m : Mesh) : m.halfedge 0 = none := by simp [Mesh.halfedge]
lemma face_zero (m : Mesh) : m.face 0 = none := by simp [Mesh.face]

lemma add_vertex_vertex_old {m : Mesh} {p : Point3} {id : Nat}
    (h : id ≤ m.vertices.length) : (m.add_vertex p).1.vertex id = m.vertex id := by
  by_cases h0 : id = 0
  · simp [Mesh.vertex, h0]
  · have hlt : id - 1 < m.vertices.length := by omega
    rw [Mesh.add_vertex, Mesh.vertex, Mesh.vertex]
    simp only [if_neg h0]
    rw [List.get?_eq_getElem?, List.get?_eq_getElem?, List.getElem?_append_left hlt]

lemma add_vertex_vertex_new {m : Mesh} {p : Point3} :
    (m.add_vertex p).1.vertex (m.vertices.length + 1) = some ⟨p, []⟩ := by
  rw [Mesh.add_vertex, Mesh.vertex]
  simp only [Nat.add_sub_cancel, Nat.succ_ne_zero, if_false]
  rw [List.get?_eq_getElem?]
  exact List.getElem?_concat_length m.vertices (⟨p, []⟩ : Vertex)

lemma add_vertex_halfedges (m : Mesh) (p : Point3) :
    (m.add_vertex p).1.halfedges = m.halfedges := rfl
lemma add_vertex_faces (m : Mesh) (p : Point3) :
    (m.add_vertex p).1.faces = m.faces := rfl
lemma add_vertex_vertices (m : Mesh) (p : Point3) :
    (m.add_vertex p).1.vertices = m.vertices ++ [⟨p, []⟩] := rfl
lemma add_vertex_snd (m : Mesh) (p : Point3) :
    (m.add_vertex p).2 = m.vertices.length + 1 := rfl

lemma add_halfedge_halfedge_old {m : Mesh} {id : Nat}
    (h : id ≤ m.halfedges.length) : m.add_halfedge.1.halfedge id = m.halfedge id := by
  by_cases h0 : id = 0
  · simp [Mesh.halfedge, h0]
  · have hlt : id - 1 < m.halfedges.length := by omega
    rw [Mesh.add_halfedge, Mesh.halfedge, Mesh.halfedge]
    simp only [if_neg h0]
    rw [List.get?_eq_getElem?, List.get?_eq_getElem?, List.getElem?_append_left hlt]

lemma add_halfedge_halfedge_new {m : Mesh} :
    m.add_halfedge.1.halfedge (m.halfedges.length + 1) = some ⟨0, 0, 0, 0⟩ := by
  rw [Mesh.add_halfedge, Mesh.halfedge]
  simp only [Nat.add_sub_cancel, Nat.succ_ne_zero, if_false]
  rw [List.get?_eq_getElem?]
  exact List.getElem?_concat_length m.halfedges (⟨0, 0, 0, 0⟩ : Halfedge)

lemma add_halfedge_vertices (m : Mesh) : m.add_halfedge.1.vertices = m.vertices := rfl
lemma add_halfedge_faces (m : Mesh) : m.add_halfedge.1.faces = m.faces := rfl
lemma add_halfedge_halfedges (m : Mesh) :
    m.add_halfedge.1.halfedges = m.halfedges ++ [⟨0, 0, 0, 0⟩] := rfl
lemma add_halfedge_snd (m : Mesh) : m.add_halfedge.2 = m.halfedges.length + 1 := rfl

lemma add_face_face_old {m : Mesh} {id : Nat}
    (h : id ≤ m.faces.length) : m.add_face.1.face id = m.face id := by
  by_cases h0 : id = 0
  · simp [Mesh.face, h0]
  · have hlt : id - 1 < m.faces.length := by omega
    rw [Mesh.add_face, Mesh.face, Mesh.face]
    simp only [if_neg h0]
    rw [List.get?_eq_getElem?, List.get?_eq_getElem?, List.getElem?_append_left hlt]

lemma add_face_face_new {m : Mesh} :
    m.add_face.1.face (m.faces.length + 1) = some ⟨0⟩ := by
  rw [Mesh.add_face, Mesh.face]
  simp only [Nat.add_sub_cancel, Nat.succ_ne_zero, if_false]
  rw [List.get?_eq_getElem?]
  exact List.getElem?_concat_length m.faces (⟨0⟩ : Face)

lemma add_face_vertices (m : Mesh) : m.add_face.1.vertices = m.vertices := rfl
lemma add_face_halfedges (m : Mesh) : m.add_face.1.halfedges = m.halfedges := rfl
lemma add_face_faces (m : Mesh) : m.add_face.1.faces = m.faces ++ [⟨0⟩] := rfl
lemma add_face_snd (m : Mesh) : m.add_face.2 = m.faces.length + 1 := rfl

/-- Characterization of `updVertex` at a live id. -/
lemma updVertex_spec {m : Mesh} {id : Nat} {v : Vertex} (f : Vertex → Vertex)
    (h : m.vertex id = some v) :
    ∃ m', m.updVertex id f = some m' ∧
      m'.halfedges = m.halfedges ∧ m'.faces = m.faces ∧
      m'.vertices.length = m.vertices.length ∧
      m'.vertex id = some (f v) ∧
      ∀ id', id' ≠ id → m'.vertex id' = m.vertex id' := by
  have h0 : id ≠ 0 := by
    intro h0; rw [h0, vertex_zero] at h; exact Option.noConfusion h
  have hlt : id - 1 < m.vertices.length := by
    have := mem_of_vertex_some h; rw [mem_vertexIdList] at this; omega
  refine ⟨{ m with vertices := m.vertices.set (id - 1) (f v) }, ?_, rfl, rfl, by simp, ?_, ?_⟩
  · rw [Mesh.updVertex, h]; rfl
  · simp only [Mesh.vertex, if_neg h0, List.get?_eq_getElem?]
    rw [List.getElem?_set_self (by simpa using hlt)]
  · intro id' hne
    by_cases h0' : id' = 0
    · simp [Mesh.vertex, h0']
    · simp only [Mesh.vertex, if_neg h0', List.get?_eq_getElem?]
      rw [List.getElem?_set_ne (by omega)]

/-- Characterization of `updHalfedge` at a live id. -/
lemma updHalfedge_spec {m : Mesh} {id : Nat} {he : Halfedge} (f : Halfedge → Halfedge)
    (h : m.halfedge id = some he) :
    ∃ m', m.updHalfedge id f = some m' ∧
      m'.vertices = m.vertices ∧ m'.faces = m.faces ∧
      m'.halfedges.length = m.halfedges.length ∧
      m'.halfedge id = some (f he) ∧
      ∀ id', id' ≠ id → m'.halfedge id' = m.halfedge id' := by
  have h0 : id ≠ 0 := by
    intro h0; rw [h0, halfedge_zero] at h; exact Option.noConfusion h
  have hlt : id - 1 < m.halfedges.length := by
    have := mem_of_halfedge_some h; rw [mem_halfedgeIdList] at this; omega
  refine ⟨{ m with halfedges := m.halfedges.set (id - 1) (f he) }, ?_, rfl, rfl, by simp, ?_, ?_⟩
  · rw [Mesh.updHalfedge, h]; rfl
  · simp only [Mesh.halfedge, if_neg h0, List.get?_eq_getElem?]
    rw [List.getElem?_set_self (by simpa using hlt)]
  · intro id' hne
    by_cases h0' : id' = 0
    · simp [Mesh.halfedge, h0']
    · simp only [Mesh.halfedge, if_neg h0', List.get?_eq_getElem?]
      rw [List.getElem?_set_ne (by omega)]

/-- Characterization of `updFace` at a live id. -/
lemma updFace_spec {m : Mesh} {id : Nat} {fc : Face} (f : Face → Face)
    (h : m.face id = some fc) :
    ∃ m', m.updFace id f = some m' ∧
      m'.vertices = m.vertices ∧ m'.halfedges = m.halfedges ∧
      m'.faces.length = m.faces.length ∧
      m'.face id = some (f fc) ∧
      ∀ id', id' ≠ id → m'.face id' = m.face id' := by
  have h0 : id ≠ 0 := by
    intro h0; rw [h0, face_zero] at h; exact Option.noConfusion h
  have hlt : id - 1 < m.faces.length := by
    have := mem_of_face_some h; rw [mem_faceIdList] at this; omega
  refine ⟨{ m with faces := m.faces.set (id - 1) (f fc) }, ?_, rfl, rfl, by simp, ?_, ?_⟩
  · rw [Mesh.updFace, h]; rfl
  · simp only [Mesh.face, if_neg h0, List.get?_eq_getElem?]
    rw [List.getElem?_set_self (by simpa using hlt)]
  · intro id' hne
    by_cases h0' : id' = 0
    · simp [Mesh.face, h0']
    · simp only [Mesh.face, if_neg h0', List.get?_eq_getElem?]
      rw [List.getElem?_set_ne (by omega)]

/-- Characterization of `insertVertexHalfedge` at a live vertex. -/
lemma insertVertexHalfedge_spec {m : Mesh} {vid : Nat} {v : Vertex} (hid : Nat)
    (h : m.vertex vid = some v) :
    ∃ m', m.insertVertexHalfedge vid hid = some m' ∧
      m'.halfedges = m.halfedges ∧ m'.faces = m.faces ∧
      m'.vertices.length = m.vertices.length ∧
      m'.vertex vid = some { v with halfedges :=
        if hid ∈ v.halfedges then v.halfedges else v.halfedges ++ [hid] } ∧
      ∀ id', id' ≠ vid → m'.vertex id' = m.vertex id' := by
  obtain ⟨m', h1, h2, h3, h4, h5, h6⟩ := updVertex_spec
    (fun v => { v with halfedges := if hid ∈ v.halfedges then v.halfedges else v.halfedges ++ [hid] }) h
  exact ⟨m', h1, h2, h3, h4, h5, h6⟩

/-- Characterization of `setHalfedgeFace` at a live halfedge. -/
lemma setHalfedgeFace_spec {m : Mesh} {hid : Nat} {he : Halfedge} (fid : Nat)
    (h : m.halfedge hid = some he) :
    ∃ m', m.setHalfedgeFace hid fid = some m' ∧
      m'.vertices = m.vertices ∧ m'.faces = m.faces ∧
      m'.halfedges.length = m.halfedges.length ∧
      m'.halfedge hid = some { he with face := fid } ∧
      ∀ id', id' ≠ hid → m'.halfedge id' = m.halfedge id' := by
  obtain ⟨m', h1, h2, h3, h4, h5, h6⟩ := updHalfedge_spec (fun he => { he with face := fid }) h
  exact ⟨m', h1, h2, h3, h4, h5, h6⟩

/-- Characterization of `setHalfedgeVertex` at a live halfedge. -/
lemma setHalfedgeVertex_spec {m : Mesh} {hid : Nat} {he : Halfedge} (vid : Nat)
    (h : m.halfedge hid = some he) :
    ∃ m', m.setHalfedgeVertex hid vid = some m' ∧
      m'.vertices = m.vertices ∧ m'.faces = m.faces ∧
      m'.halfedges.length = m.halfedges.length ∧
      m'.halfedge hid = some { he with vertex := vid } ∧
      ∀ id', id' ≠ hid → m'.halfedge id' = m.halfedge id' := by
  obtain ⟨m', h1, h2, h3, h4, h5, h6⟩ := updHalfedge_spec (fun he => { he with vertex := vid }) h
  exact ⟨m', h1, h2, h3, h4, h5, h6⟩

/-- Characterization of `link_halfedges` at a live halfedge. -/
lemma link_halfedges_spec {m : Mesh} {a : Nat} {he : Halfedge} (b : Nat)
    (h : m.halfedge a = some he) :
    ∃ m', m.link_halfedges a b = some m' ∧
      m'.vertices = m.vertices ∧ m'.faces = m.faces ∧
      m'.halfedges.length = m.halfedges.length ∧
      m'.halfedge a = some { he with next := b } ∧
      ∀ id', id' ≠ a → m'.halfedge id' = m.halfedge id' := by
  obtain ⟨m', h1, h2, h3, h4, h5, h6⟩ := updHalfedge_spec (fun he => { he with next := b }) h
  exact ⟨m', h1, h2, h3, h4, h5, h6⟩

/-- Characterization of `setFaceHalfedge` at a live face. -/
lemma setFaceHalfedge_spec {m : Mesh} {fid : Nat} {fc : Face} (hid : Nat)
    (h : m.face fid = some fc) :
    ∃ m', m.setFaceHalfedge fid hid = some m' ∧
      m'.vertices = m.vertices ∧ m'.halfedges = m.halfedges ∧
      m'.faces.length = m.faces.length ∧
      m'.face fid = some ⟨hid⟩ ∧
      ∀ id', id' ≠ fid → m'.face id' = m.face id' := by
  obtain ⟨m', h1, h2, h3, h4, h5, h6⟩ := updFace_spec (fun _ => ⟨hid⟩) h
  exact ⟨m', h1, h2, h3, h4, h5, h6⟩

/-! ## Association-list cache lemmas -/

lemma alookup_cons {α : Type} (k' : Nat) (d : α) (l : List (Nat × α)) (k : Nat) :
    alookup ((k', d) :: l) k = if k = k' then some d else alookup l k := rfl

lemma alookup_none_not_mem {α : Type} {l : List (Nat × α)} {k : Nat}
    (h : alookup l k = none) : k ∉ l.map Prod.fst := by
  induction l with
  | nil => simp
  | cons p rest ih =>
    rw [alookup] at h
    by_cases hk : k = p.1
    · simp [hk] at h
    · simp only [if_neg hk] at h
      simp only [List.map_cons, List.mem_cons]
      rintro (h1 | h1)
      · exact hk h1
      · exact (ih h) h1

lemma alookup_some_mem {α : Type} {l : List (Nat × α)} {k : Nat} {d : α}
    (h : alookup l k = some d) : (k, d) ∈ l := by
  induction l with
  | nil => simp [alookup] at h
  | cons p rest ih =>
    rw [alookup] at h
    by_cases hk : k = p.1
    · simp only [if_pos hk] at h
      have : (k, d) = p := by
        cases p
        simp only [Option.some.injEq] at h
        simp_all
      rw [this]
      exact List.mem_cons_self _ _
    · simp only [if_neg hk] at h
      exact List.mem_cons_of_mem _ (ih h)

lemma alookup_isSome_mem_keys {α : Type} {l : List (Nat × α)} {k : Nat} {d : α}
    (h : alookup l k = some d) : k ∈ l.map Prod.fst := by
  have := alookup_some_mem h
  exact List.mem_map.mpr ⟨(k, d), this, rfl⟩

/-- Prepending a fresh key does not disturb lookups that previously
succeeded. -/
lemma alookup_prepend {α : Type} {l : List (Nat × α)} {k : Nat} {d : α}
    (k' : Nat) (d' : α) (hmiss : alookup l k' = none)
    (h : alookup l k = some d) : alookup ((k', d') :: l) k = some d := by
  rw [alookup_cons]
  by_cases hk : k = k'
  · rw [hk, hmiss] at h; exact Option.noConfusion h
  · rw [if_neg hk]; exact h

/-! ## optP lemmas -/

lemma optP_some {α : Type} {o : Option α} {p : α → Prop} (h : optP o p) :
    ∃ a, o = some a ∧ p a := by
  cases o with
  | none => exact absurd h (fun h => h)
  | some a => exact ⟨a, rfl, h⟩

lemma optP_of_eq {α : Type} {o : Option α} {p : α → Prop} {a : α}
    (h : o = some a) (hp : p a) : optP o p := by
  rw [h]; exact hp

lemma optP_elim {α : Type} {o : Option α} {p : α → Prop} {a : α}
    (h : optP o p) (heq : o = some a) : p a := by
  rw [heq] at h; exact h

/-! ## Face-boundary traversal lemmas -/

/-- Structural facts about a successful bounded `next` walk: the list starts
at `cur`, every member is live, every member's successor is the start or
another member, every member other than `cur` is some member's successor, and
some member's successor is the start. -/
lemma faceHalfedgeListAux_props {m : Mesh} {start : Nat} :
    ∀ {fuel cur L}, faceHalfedgeListAux m start fuel cur = some L →
      (∃ rest, L = cur :: rest) ∧
      (∀ x ∈ L, ∃ he, m.halfedge x = some he) ∧
      (∀ x ∈ L, ∀ he, m.halfedge x = some he → he.next = start ∨ he.next ∈ L) ∧
      (∀ x ∈ L, x = cur ∨ ∃ h ∈ L, ∃ he, m.halfedge h = some he ∧ he.next = x) ∧
      (∃ h ∈ L, ∃ he, m.halfedge h = some he ∧ he.next = start) := by
  intro fuel
  induction fuel with
  | zero => intro cur L h; exact absurd h (by simp [faceHalfedgeListAux])
  | succ fuel ih =>
    intro cur L h
    rw [faceHalfedgeListAux] at h
    cases hcur : m.halfedge cur with
    | none => rw [hcur] at h; exact Option.noConfusion h
    | some he =>
      rw [hcur] at h
      dsimp only at h
      by_cases hstop : he.next = start
      · rw [if_pos hstop] at h
        injection h with h
        subst h
        refine ⟨⟨[], rfl⟩, ?_, ?_, ?_, ?_⟩
        · intro x hx
          simp only [List.mem_singleton] at hx
          exact ⟨he, hx ▸ hcur⟩
        · intro x hx he' hhe'
          simp only [List.mem_singleton] at hx
          subst hx
          rw [hcur] at hhe'
          injection hhe' with hhe'
          subst hhe'
          exact Or.inl hstop
        · intro x hx
          simp only [List.mem_singleton] at hx
          exact Or.inl hx
        · exact ⟨cur, List.mem_singleton_self _, he, hcur, hstop⟩
      · rw [if_neg hstop] at h
        cases hrec : faceHalfedgeListAux m start fuel he.next with
        | none => rw [hrec] at h; exact Option.noConfusion h
        | some L' =>
          rw [hrec] at h
          simp only [Option.map_some'] at h
          injection h with h
          subst h
          obtain ⟨⟨rest', hL'⟩, hlive, hnext, hpred, hlast⟩ := ih hrec
          refine ⟨⟨L', rfl⟩, ?_, ?_, ?_, ?_⟩
          · intro x hx
            rcases List.mem_cons.mp hx with hx | hx
            · exact ⟨he, hx ▸ hcur⟩
            · exact hlive x hx
          · intro x hx he' hhe'
            rcases List.mem_cons.mp hx with hx | hx
            · subst hx
              rw [hcur] at hhe'
              injection hhe' with hhe'
              subst hhe'
              right
              rw [hL']
              exact List.mem_cons_of_mem _ (List.mem_cons_self _ _)
            · rcases hnext x hx he' hhe' with h1 | h1
              · exact Or.inl h1
              · exact Or.inr (List.mem_cons_of_mem _ h1)
          · intro x hx
            rcases List.mem_cons.mp hx with hx | hx
            · exact Or.inl hx
            · rcases hpred x hx with h1 | h1
              · right
                refine ⟨cur, List.mem_cons_self _ _, he, hcur, ?_⟩
                rw [h1]
              · obtain ⟨h', hh', he', hhe', hnx⟩ := h1
                exact Or.inr ⟨h', List.mem_cons_of_mem _ hh', he', hhe', hnx⟩
          · obtain ⟨h', hh', he', hhe', hnx⟩ := hlast
            exact ⟨h', List.mem_cons_of_mem _ hh', he', hhe', hnx⟩

/-- The same facts for a successful `faceHalfedgeList`, where the walk starts
and ends at `start`, so that `start` heads the list and every member's
successor is again a member. -/
lemma faceHalfedgeList_props {m : Mesh} {start : Nat} {L : List Nat}
    (h : faceHalfedgeList m start = some L) :
    (∃ rest, L = start :: rest) ∧
    (∀ x ∈ L, ∃ he, m.halfedge x = some he) ∧
    (∀ x ∈ L, ∀ he, m.halfedge x = some he → he.next ∈ L) ∧
    (∀ x ∈ L, ∃ h' ∈ L, ∃ he, m.halfedge h' = some he ∧ he.next = x) := by
  obtain ⟨⟨rest, hL⟩, hlive, hnext, hpred, hlast⟩ := faceHalfedgeListAux_props h
  have hstart : start ∈ L := by rw [hL]; exact List.mem_cons_self _ _
  refine ⟨⟨rest, hL⟩, hlive, ?_, ?_⟩
  · intro x hx he hhe
    rcases hnext x hx he hhe with h1 | h1
    · rw [h1]; exact hstart
    · exact h1
  · intro x hx
    rcases hpred x hx with h1 | h1
    · subst h1
      exact hlast
    · exact h1

/-- Unfolding a bounded walk along an explicit 4-cycle. -/
lemma faceHalfedgeListAux_quad {m : Mesh} {h1 h2 h3 h4 : Nat}
    {he1 he2 he3 he4 : Halfedge}
    (l1 : m.halfedge h1 = some he1) (l2 : m.halfedge h2 = some he2)
    (l3 : m.halfedge h3 = some he3) (l4 : m.halfedge h4 = some he4)
    (n1 : he1.next = h2) (n2 : he2.next = h3) (n3 : he3.next = h4) (n4 : he4.next = h1)
    (d2 : h2 ≠ h1) (d3 : h3 ≠ h1) (d4 : h4 ≠ h1) :
    ∀ k, faceHalfedgeListAux m h1 (k + 4) h1 = some [h1, h2, h3, h4] := by
  intro k
  show faceHalfedgeListAux m h1 ((k + 3) + 1) h1 = _
  rw [faceHalfedgeListAux, l1]
  dsimp only
  rw [n1, if_neg d2]
  show Option.map _ (faceHalfedgeListAux m h1 ((k + 2) + 1) h2) = _
  rw [faceHalfedgeListAux, l2]
  dsimp only
  rw [n2, if_neg d3]
  show Option.map _ (Option.map _ (faceHalfedgeListAux m h1 ((k + 1) + 1) h3)) = _
  rw [faceHalfedgeListAux, l3]
  dsimp only
  rw [n3, if_neg d4]
  show Option.map _ (Option.map _ (Option.map _ (faceHalfedgeListAux m h1 (k + 1) h4))) = _
  rw [faceHalfedgeListAux, l4]
  dsimp only
  rw [n4, if_pos rfl]
  rfl

/-- A live explicit 4-cycle yields a boundary list of length exactly 4. -/
lemma faceHalfedgeList_quad {m : Mesh} {h1 h2 h3 h4 : Nat}
    {he1 he2 he3 he4 : Halfedge}
    (l1 : m.halfedge h1 = some he1) (l2 : m.halfedge h2 = some he2)
    (l3 : m.halfedge h3 = some he3) (l4 : m.halfedge h4 = some he4)
    (n1 : he1.next = h2) (n2 : he2.next = h3) (n3 : he3.next = h4) (n4 : he4.next = h1)
    (d2 : h2 ≠ h1) (d3 : h3 ≠ h1) (d4 : h4 ≠ h1)
    (hlen : 4 ≤ m.halfedges.length) :
    faceHalfedgeList m h1 = some [h1, h2, h3, h4] := by
  rw [faceHalfedgeList]
  have : m.halfedges.length + 1 = (m.halfedges.length - 3) + 4 := by omega
  rw [this]
  exact faceHalfedgeListAux_quad l1 l2 l3 l4 n1 n2 n3 n4 d2 d3 d4 _

/-- `mapM` over `Option` succeeds when every element maps to `some`. -/
lemma mapM_option_some {α β : Type} (f : α → Option β) :
    ∀ (l : List α), (∀ x ∈ l, ∃ y, f x = some y) →
      ∃ ys, l.mapM f = some ys ∧ ys.length = l.length := by
  intro l
  induction l with
  | nil => intro _; exact ⟨[], by rw [List.mapM_nil]; rfl, rfl⟩
  | cons a rest ih =>
    intro hall
    obtain ⟨y, hy⟩ := hall a (List.mem_cons_self _ _)
    obtain ⟨ys, hys, hlen⟩ := ih (fun x hx => hall x (List.mem_cons_of_mem _ hx))
    refine ⟨y :: ys, ?_, by simp [hlen]⟩
    rw [List.mapM_cons, hy, hys]
    rfl

/-- Reduction of the `Option` do-notation bind at a `some`. -/
lemma bind_some_eq {α β : Type} (a : α) (f : α → Option β) :
    ((some a : Option α) >>= f) = f a := rfl

/-- `pure` for `Option` is `some`. -/
lemma pure_eq_some {α : Type} (a : α) : (pure a : Option α) = some a := rfl

/-! ## Consequences of the §3 invariants -/

lemma Invariants.facesOk {m : Mesh} (h : Invariants m) : FacesOk m := h.1
lemma Invariants.coverage {m : Mesh} (h : Invariants m) : Coverage m := h.2.1
lemma Invariants.involution {m : Mesh} (h : Invariants m) : Involution m := h.2.2.1
lemma Invariants.originsLive {m : Mesh} (h : Invariants m) : OriginsLive m := h.2.2.2.1
lemma Invariants.incidence {m : Mesh} (h : Invariants m) : Incidence m := h.2.2.2.2

/-- Unpacked boundary data of a live face. -/
lemma inv_face_boundary {m : Mesh} {fid : Nat} (inv : Invariants m)
    (hf : fid ∈ faceIdList m) :
    ∃ f L, m.face fid = some f ∧ faceHalfedgeList m f.halfedge = some L ∧
      3 ≤ L.length ∧ L.Nodup ∧
      ∀ h ∈ L, ∃ he, m.halfedge h = some he ∧ he.face = fid := by
  have := inv.facesOk fid hf
  obtain ⟨f, hface, hrest⟩ := optP_some this
  obtain ⟨L, hlist, hlen, hnodup, hmem⟩ := optP_some hrest
  refine ⟨f, L, hface, hlist, hlen, hnodup, ?_⟩
  intro h hh
  obtain ⟨he, hhe, hfc⟩ := optP_some (hmem h hh)
  exact ⟨he, hhe, hfc⟩

/-- Every live halfedge's origin vertex is live. -/
lemma inv_origin_live {m : Mesh} {h : Nat} {he : Halfedge} (inv : Invariants m)
    (hhe : m.halfedge h = some he) : ∃ v, m.vertex he.vertex = some v := by
  have hmem := mem_of_halfedge_some hhe
  have := inv.originsLive h hmem
  obtain ⟨he', hhe', hsome⟩ := optP_some this
  rw [hhe] at hhe'
  injection hhe' with hhe'
  subst hhe'
  exact Option.isSome_iff_exists.mp hsome

/-- Every live halfedge lies on its own face's boundary list, and its `face`
field names that face. -/
lemma inv_coverage_face {m : Mesh} {h : Nat} {he : Halfedge} (inv : Invariants m)
    (hhe : m.halfedge h = some he) :
    he.face ∈ faceIdList m ∧
      ∃ f L, m.face he.face = some f ∧ faceHalfedgeList m f.halfedge = some L ∧ h ∈ L := by
  have hmem := mem_of_halfedge_some hhe
  obtain ⟨fid, hfid, hcov⟩ := inv.coverage h hmem
  obtain ⟨f, hface, hrest⟩ := optP_some hcov
  obtain ⟨L, hlist, hL⟩ := optP_some hrest
  obtain ⟨f', L', hface', hlist', _, _, hmem'⟩ := inv_face_boundary inv hfid
  rw [hface] at hface'
  injection hface' with hface'
  subst hface'
  rw [hlist] at hlist'
  injection hlist' with hlist'
  subst hlist'
  obtain ⟨he', hhe', hfc⟩ := hmem' h hL
  rw [hhe] at hhe'
  injection hhe' with hhe'
  subst hhe'
  rw [← hfc] at hfid hface
  exact ⟨hfid, f, L, hface, hlist, hL⟩

/-- The successor of a live halfedge is live. -/
lemma inv_next_live {m : Mesh} {h : Nat} {he : Halfedge} (inv : Invariants m)
    (hhe : m.halfedge h = some he) : ∃ nhe, m.halfedge he.next = some nhe := by
  obtain ⟨-, f, L, hface, hlist, hL⟩ := inv_coverage_face inv hhe
  obtain ⟨-, hlive, hnext, -⟩ := faceHalfedgeList_props hlist
  exact hlive he.next (hnext h hL he hhe)

/-- The opposite of a live halfedge is live and points back. -/
lemma inv_opposite {m : Mesh} {h : Nat} {he : Halfedge} (inv : Invariants m)
    (hhe : m.halfedge h = some he) :
    ∃ ohe, m.halfedge he.opposite = some ohe ∧ ohe.opposite = h := by
  have hmem := mem_of_halfedge_some hhe
  have := inv.involution h hmem
  obtain ⟨he', hhe', hrest⟩ := optP_some this
  rw [hhe] at hhe'
  injection hhe' with hhe'
  subst hhe'
  obtain ⟨ohe, hohe, hback⟩ := optP_some hrest
  exact ⟨ohe, hohe, hback⟩

/-- `face_center` succeeds on every live face. -/
lemma inv_face_center_some {m : Mesh} {fid : Nat} (inv : Invariants m)
    (hf : fid ∈ faceIdList m) : ∃ c, m.face_center fid = some c := by
  obtain ⟨f, L, hface, hlist, -, -, hmem⟩ := inv_face_boundary inv hf
  have hall : ∀ h ∈ L, ∃ p, (do
      let he ← m.halfedge h
      let v ← m.vertex he.vertex
      pure v.position : Option Point3) = some p := by
    intro h hh
    obtain ⟨he, hhe, -⟩ := hmem h hh
    obtain ⟨v, hv⟩ := inv_origin_live inv hhe
    exact ⟨v.position, by rw [hhe, bind_some_eq, hv, bind_some_eq, pure_eq_some]⟩
  obtain ⟨ps, hps, -⟩ := mapM_option_some _ L hall
  refine ⟨Point3.centroid ps, ?_⟩
  rw [Mesh.face_center, hface, bind_some_eq, hlist, bind_some_eq, hps,
    bind_some_eq, pure_eq_some]

/-- `edge_center` succeeds on every live halfedge. -/
lemma inv_edge_center_some {m : Mesh} {h : Nat} {he : Halfedge} (inv : Invariants m)
    (hhe : m.halfedge h = some he) : ∃ c, m.edge_center h = some c := by
  obtain ⟨nhe, hnhe⟩ := inv_next_live inv hhe
  obtain ⟨v1, hv1⟩ := inv_origin_live inv hhe
  obtain ⟨v2, hv2⟩ := inv_origin_live inv hnhe
  refine ⟨Point3.mid v1.position v2.position, ?_⟩
  rw [Mesh.edge_center, hhe, bind_some_eq, hnhe, bind_some_eq, hv1, bind_some_eq,
    hv2, bind_some_eq, pure_eq_some]

/-! ## Canonicalization lemmas -/

lemma peek_eq_min {m : Mesh} {h : Nat} {he : Halfedge} {ohe : Halfedge}
    (hhe : m.halfedge h = some he) (hop : m.halfedge he.opposite = some ohe) :
    m.peek_same_halfedge h = some (min h he.opposite) := by
  rw [Mesh.peek_same_halfedge, hhe, Option.map_some', hop]

/-- Under the invariants, canonicalization picks the smaller of the two
paired ids. -/
lemma inv_peek_some {m : Mesh} {h : Nat} {he : Halfedge} (inv : Invariants m)
    (hhe : m.halfedge h = some he) :
    m.peek_same_halfedge h = some (min h he.opposite) := by
  obtain ⟨ohe, hohe, -⟩ := inv_opposite inv hhe
  exact peek_eq_min hhe hohe

/-- The canonical id of a live halfedge is itself live. -/
lemma inv_canon_live {m : Mesh} {h : Nat} {he : Halfedge} (inv : Invariants m)
    (hhe : m.halfedge h = some he) :
    ∃ ce, m.halfedge (min h he.opposite) = some ce := by
  obtain ⟨ohe, hohe, -⟩ := inv_opposite inv hhe
  rcases Nat.le_total h he.opposite with hle | hle
  · rw [min_eq_left hle]; exact ⟨he, hhe⟩
  · rw [min_eq_right hle]; exact ⟨ohe, hohe⟩

/-- The canonical id is a fixed point of canonicalization. -/
lemma inv_peek_fixed {m : Mesh} {h : Nat} {he : Halfedge} (inv : Invariants m)
    (hhe : m.halfedge h = some he) :
    m.peek_same_halfedge (min h he.opposite) = some (min h he.opposite) := by
  obtain ⟨ohe, hohe, hback⟩ := inv_opposite inv hhe
  rcases Nat.le_total h he.opposite with hle | hle
  · rw [min_eq_left hle, inv_peek_some inv hhe, min_eq_left hle]
  · rw [min_eq_right hle, inv_peek_some inv hohe, hback, min_eq_left hle]

/-- Canonicalization identifies a halfedge with its opposite. -/
lemma inv_peek_opposite {m : Mesh} {h : Nat} {he : Halfedge} (inv : Invariants m)
    (hhe : m.halfedge h = some he) :
    m.peek_same_halfedge he.opposite = m.peek_same_halfedge h := by
  obtain ⟨ohe, hohe, hback⟩ := inv_opposite inv hhe
  rw [inv_peek_some inv hhe, inv_peek_some inv hohe, hback, min_comm]

/-- The initial subdivider state is sound for any input. -/
lemma cacheOK_init (input : Mesh) : CacheOK input initState := by
  constructor <;> simp [initState]

lemma SExt.refl (s : SubState) : SExt s s :=
  ⟨fun _ _ h => h, fun _ _ h => h, fun _ _ h => h, fun _ _ h => h, fun _ _ h => h,
    le_refl _, le_refl _, le_refl _⟩

lemma SExt.trans {s1 s2 s3 : SubState} (a : SExt s1 s2) (b : SExt s2 s3) : SExt s1 s3 :=
  ⟨fun k d h => b.fd k d (a.fd k d h), fun k d h => b.ed k d (a.ed k d h),
    fun k d h => b.vd k d (a.vd k d h), fun i he h => b.hes i he (a.hes i he h),
    fun i f h => b.fcs i f (a.fcs i f h), le_trans a.vlen b.vlen,
    le_trans a.hlen b.hlen, le_trans a.flen b.flen⟩

lemma newVerticesEmpty_refl (m : Mesh) : NewVerticesEmpty m m :=
  ⟨[], by simp, by simp⟩

lemma newVerticesEmpty_trans {m1 m2 m3 : Mesh}
    (a : NewVerticesEmpty m1 m2) (b : NewVerticesEmpty m2 m3) : NewVerticesEmpty m1 m3 := by
  obtain ⟨l1, h1, e1⟩ := a
  obtain ⟨l2, h2, e2⟩ := b
  refine ⟨l1 ++ l2, by rw [h2, h1, List.append_assoc], ?_⟩
  intro v hv
  rcases List.mem_append.mp hv with hv | hv
  · exact e1 v hv
  · exact e2 v hv

lemma newVerticesEmpty_add_vertex (m : Mesh) (p : Point3) :
    NewVerticesEmpty m (m.add_vertex p).1 :=
  ⟨[⟨p, []⟩], rfl, by simp⟩

/-- Old vertex lookups are unchanged when the vertex arena is only appended. -/
lemma vertex_of_append {m m' : Mesh} {l : List Vertex} {id : Nat}
    (h : m'.vertices = m.vertices ++ l) (hid : id ≤ m.vertices.length) :
    m'.vertex id = m.vertex id := by
  by_cases h0 : id = 0
  · simp [Mesh.vertex, h0]
  · have hlt : id - 1 < m.vertices.length := by omega
    rw [Mesh.vertex, Mesh.vertex]
    simp only [if_neg h0, List.get?_eq_getElem?, h]
    rw [List.getElem?_append_left hlt]

/-- The empty output mesh is trivially well-formed. -/
lemma outMeshOK_init : OutMeshOK initState.output := by
  constructor
  · intro fid hfid
    rw [mem_faceIdList] at hfid
    simp [initState] at hfid
    omega
  · intro vid v hv
    simp [initState, Mesh.vertex] at hv
  · intro i he h
    simp [initState, Mesh.halfedge] at h
  · intro i he h
    simp [initState, Mesh.halfedge] at h

/-- `QuadOK` only depends on face and halfedge lookups. -/
lemma quadOK_mono {m m' : Mesh} {fid : Nat}
    (hf : ∀ i f, m.face i = some f → m'.face i = some f)
    (hh : ∀ i he, m.halfedge i = some he → m'.halfedge i = some he)
    (h : QuadOK m fid) : QuadOK m' fid := by
  obtain ⟨f, he1, he2, he3, he4, h0, h1, h2, h3, h4, hc, hf1, hf2, hf3, hf4, d1, d2, d3, d4, d5, d6⟩ := h
  exact ⟨f, he1, he2, he3, he4, hf _ _ h0, hh _ _ h1, hh _ _ h2, hh _ _ h3, hh _ _ h4,
    hc, hf1, hf2, hf3, hf4, d1, d2, d3, d4, d5, d6⟩

/-- Growing the output mesh by fresh empty-incidence vertices preserves its
invariants. -/
lemma outMeshOK_grow {m m' : Mesh}
    (hnew : NewVerticesEmpty m m')
    (hhe : m'.halfedges = m.halfedges) (hfc : m'.faces = m.faces)
    (h : OutMeshOK m) : OutMeshOK m' := by
  obtain ⟨l, hl, hempty⟩ := hnew
  have stableH : ∀ i he, m.halfedge i = some he → m'.halfedge i = some he := by
    intro i he hi
    rw [Mesh.halfedge, hhe] at *
    exact hi
  have stableH' : ∀ i he, m'.halfedge i = some he → m.halfedge i = some he := by
    intro i he hi
    rw [Mesh.halfedge, hhe] at hi
    exact hi
  have stableF : ∀ i f, m.face i = some f → m'.face i = some f := by
    intro i f hi
    rw [Mesh.face, hfc] at *
    exact hi
  constructor
  · intro fid hfid
    rw [mem_faceIdList] at hfid
    rw [hfc] at hfid
    have : fid ∈ faceIdList m := mem_faceIdList.mpr hfid
    exact quadOK_mono stableF stableH (h.quad fid this)
  · intro vid v hv hh'
    by_cases hle : vid ≤ m.vertices.length
    · rw [vertex_of_append hl hle] at hv
      exact fun hmem => (fun ⟨he, h1, h2⟩ => ⟨he, stableH _ _ h1, h2⟩) (h.inc vid v hv hh' hmem)
    · -- a fresh vertex: its incidence set is empty
      have h0 : vid ≠ 0 := by
        intro h0; rw [h0, vertex_zero] at hv; exact Option.noConfusion hv
      have hvm := mem_of_vertex_some hv
      rw [mem_vertexIdList, hl, List.length_append] at hvm
      have hidx : vid - 1 < m.vertices.length + l.length := by omega
      have : v ∈ l := by
        rw [Mesh.vertex, if_neg h0] at hv
        rw [List.get?_eq_getElem?, hl] at hv
        rw [List.getElem?_append_right (by omega)] at hv
        have := List.getElem?_mem hv
        exact this
      rw [hempty v this]
      intro hmem
      simp at hmem
  · intro i he hi
    exact h.opp0 i he (stableH' i he hi)
  · intro i he hi
    have := h.hvlive i he (stableH' i he hi)
    rw [hl, List.length_append]
    omega

/-! ## Lookup congruence helpers -/

lemma vertex_congr {m m' : Mesh} (h : m'.vertices = m.vertices) (i : Nat) :
    m'.vertex i = m.vertex i := by rw [Mesh.vertex, Mesh.vertex, h]

lemma halfedge_congr {m m' : Mesh} (h : m'.halfedges = m.halfedges) (i : Nat) :
    m'.halfedge i = m.halfedge i := by rw [Mesh.halfedge, Mesh.halfedge, h]

lemma face_congr {m m' : Mesh} (h : m'.faces = m.faces) (i : Nat) :
    m'.face i = m.face i := by rw [Mesh.face, Mesh.face, h]

/-! ## Specification of the three cache operations -/

/-- `face_data_mut` succeeds on a live input face and returns the face-center
data, extending the state soundly; it touches only the face cache and the
output vertex arena. -/
lemma face_data_mut_spec {input : Mesh} {s : SubState} {fid : Nat}
    (inv : Invariants input) (ok : CacheOK input s)
    (hmem : fid ∈ faceIdList input) :
    ∃ d s', face_data_mut input fid s = some (d, s') ∧
      CacheOK input s' ∧ SExt s s' ∧
      alookup s'.faceData fid = some d ∧
      input.face_center fid = some d.average_of_points ∧
      s'.edgeData = s.edgeData ∧ s'.vertexData = s.vertexData ∧
      s'.output.halfedges = s.output.halfedges ∧
      s'.output.faces = s.output.faces ∧
      NewVerticesEmpty s.output s'.output := by
  cases hhit : alookup s.faceData fid with
  | some d =>
    refine ⟨d, s, ?_, ok, SExt.refl s, hhit, ?_, rfl, rfl, rfl, rfl,
      newVerticesEmpty_refl _⟩
    · rw [face_data_mut, hhit]
    · exact (ok.face_sound _ (alookup_some_mem hhit)).2.1
  | none =>
    obtain ⟨c, hc⟩ := inv_face_center_some inv hmem
    refine ⟨⟨c, s.output.vertices.length + 1⟩,
      { s with faceData := (fid, ⟨c, s.output.vertices.length + 1⟩) :: s.faceData,
               output := (s.output.add_vertex c).1 }, ?_, ?_, ?_, ?_, hc,
      rfl, rfl, rfl, rfl, newVerticesEmpty_add_vertex _ _⟩
    · rw [face_data_mut, hhit, hc, Option.map_some']
      rfl
    · constructor
      · intro p hp
        rcases List.mem_cons.mp hp with hp | hp
        · subst hp
          refine ⟨hmem, hc, by dsimp only; omega, ?_⟩
          dsimp only [Mesh.add_vertex]
          simp
        · obtain ⟨h1, h2, h3, h4⟩ := ok.face_sound p hp
          refine ⟨h1, h2, h3, ?_⟩
          simp [Mesh.add_vertex]
          omega
      · simp only [List.map_cons]
        exact List.nodup_cons.mpr ⟨alookup_none_not_mem hhit, ok.face_nodup⟩
      · intro p hp
        obtain ⟨h1, h2, h3, h4, h5⟩ := ok.edge_sound p hp
        refine ⟨h1, h2, h3, h4, ?_⟩
        simp [Mesh.add_vertex]
        omega
      · exact ok.edge_nodup
      · intro p hp
        obtain ⟨h1, h2, h3⟩ := ok.vertex_sound p hp
        refine ⟨h1, h2, ?_⟩
        simp [Mesh.add_vertex]
        omega
      · exact ok.vertex_nodup
      · simp only [List.length_cons]
        simp [Mesh.add_vertex]
        rw [ok.count]
        omega
    · constructor
      · intro k d hk
        exact alookup_prepend _ _ hhit hk
      · exact fun _ _ h => h
      · exact fun _ _ h => h
      · exact fun i he h => h
      · exact fun i f h => h
      · simp [Mesh.add_vertex]
      · exact le_refl _
      · exact le_refl _
    · rw [alookup_cons, if_pos rfl]

/-- `edge_data_mut` on a cache miss for the canonical id: computes the edge
midpoint and the edge point (centroid of the two adjacent face points and the
two endpoint positions), adds exactly one new output vertex there, and caches
`{midpoint, generated_id}` under the canonical key. -/
lemma edge_data_mut_miss_spec {input : Mesh} {s : SubState} {hid : Nat} {he0 : Halfedge}
    (inv : Invariants input) (ok : CacheOK input s)
    (hhe0 : input.halfedge hid = some he0)
    (hmiss : alookup s.edgeData (min hid he0.opposite) = none) :
    ∃ d s', edge_data_mut input hid s = some (d, s') ∧
      CacheOK input s' ∧ SExt s s' ∧
      input.peek_same_halfedge hid = some (min hid he0.opposite) ∧
      s'.edgeData = (min hid he0.opposite, d) :: s.edgeData ∧
      input.edge_center (min hid he0.opposite) = some d.mid_point ∧
      s'.output.vertex d.generated_vertex_id =
        some ⟨edgePointFormula input (min hid he0.opposite), []⟩ ∧
      s'.vertexData = s.vertexData ∧
      s'.output.halfedges = s.output.halfedges ∧
      s'.output.faces = s.output.faces ∧
      NewVerticesEmpty s.output s'.output ∧
      (∀ hee, input.halfedge (min hid he0.opposite) = some hee →
        (∃ dd, alookup s'.faceData hee.face = some dd) ∧
        ∀ ohee, input.halfedge hee.opposite = some ohee →
          ∃ dd, alookup s'.faceData ohee.face = some dd) := by
  have hpeek := inv_peek_some inv hhe0
  set c := min hid he0.opposite with hc
  obtain ⟨ce, hce⟩ := inv_canon_live inv hhe0
  obtain ⟨mid, hmid⟩ := inv_edge_center_some inv hce
  obtain ⟨ohe, hohe, hback⟩ := inv_opposite inv hce
  obtain ⟨nhe, hnhe⟩ := inv_next_live inv hce
  obtain ⟨sv, hsv⟩ := inv_origin_live inv hce
  obtain ⟨tv, htv⟩ := inv_origin_live inv hnhe
  have hf1mem : ce.face ∈ faceIdList input := (inv_coverage_face inv hce).1
  have hf2mem : ohe.face ∈ faceIdList input := (inv_coverage_face inv hohe).1
  obtain ⟨d1, s1, hfd1, ok1, ext1, hl1, hc1, he1, hv1, hh1, hfc1, hnv1⟩ :=
    face_data_mut_spec inv ok hf1mem
  obtain ⟨d2, s2, hfd2, ok2, ext2, hl2, hc2, he2, hv2, hh2, hfc2, hnv2⟩ :=
    face_data_mut_spec inv ok1 hf2mem
  have hed2 : s2.edgeData = s.edgeData := by rw [he2, he1]
  have hvd2 : s2.vertexData = s.vertexData := by rw [hv2, hv1]
  have hhe2 : s2.output.halfedges = s.output.halfedges := by rw [hh2, hh1]
  have hfc2' : s2.output.faces = s.output.faces := by rw [hfc2, hfc1]
  set cc := Point3.centroid [d1.average_of_points, d2.average_of_points,
    sv.position, tv.position] with hcc
  set d : EdgeData := ⟨mid, s2.output.vertices.length + 1⟩ with hd
  set s' : SubState := { s2 with edgeData := (c, d) :: s2.edgeData, output := (s2.output.add_vertex cc).1 } with hs'
  have hmiss2 : alookup s2.edgeData c = none := by rw [hed2]; exact hmiss
  have hrun : edge_data_mut input hid s = some (d, s') := by
    rw [edge_data_mut, hpeek, bind_some_eq]
    dsimp only
    rw [hmiss]
    dsimp only
    rw [hmid, bind_some_eq, hce, bind_some_eq, hohe, bind_some_eq, hnhe,
      bind_some_eq, hsv, bind_some_eq, htv, bind_some_eq, hfd1, bind_some_eq]
    dsimp only
    rw [hfd2, bind_some_eq]
    dsimp only
    rfl
  have hformula : cc = edgePointFormula input c := by
    rw [edgePointFormula, hce]
    dsimp only
    have e1 : faceCenterOf input ce.face = d1.average_of_points := by
      rw [faceCenterOf, hc1]; rfl
    have e2 : faceCenterOf input (faceOfHalfedge input ce.opposite) = d2.average_of_points := by
      rw [faceOfHalfedge, hohe]
      dsimp only [Option.map_some', Option.getD_some]
      rw [faceCenterOf, hc2]
      rfl
    have e3 : posOf input ce.vertex = sv.position := by rw [posOf, hsv]; rfl
    have e4 : ((input.halfedge ce.next).map fun nhe => posOf input nhe.vertex).getD Point3.zero
        = tv.position := by
      rw [hnhe]
      dsimp only [Option.map_some', Option.getD_some]
      rw [posOf, htv]
      rfl
    rw [e1, e2, e3, e4]
  refine ⟨d, s', hrun, ?_, ?_, hpeek, by rw [hs', hed2], hmid, ?_, by rw [hs', hvd2],
    by rw [hs']; exact hhe2, by rw [hs']; exact hfc2', ?_, ?_⟩
  · -- CacheOK s'
    constructor
    · intro p hp
      have hp' : p ∈ s2.faceData := hp
      obtain ⟨h1, h2, h3, h4⟩ := ok2.face_sound p hp'
      refine ⟨h1, h2, h3, ?_⟩
      rw [hs']
      dsimp only [Mesh.add_vertex]
      simp only [List.length_append, List.length_cons, List.length_nil]
      omega
    · exact ok2.face_nodup
    · intro p hp
      rcases List.mem_cons.mp hp with hp | hp
      · subst hp
        refine ⟨inv_peek_fixed inv hhe0, mem_of_halfedge_some hce, hmid,
          by dsimp only; omega, ?_⟩
        rw [hs']
        dsimp only [Mesh.add_vertex]
        simp
      · obtain ⟨h1, h2, h3, h4, h5⟩ := ok2.edge_sound p hp
        refine ⟨h1, h2, h3, h4, ?_⟩
        rw [hs']
        dsimp only [Mesh.add_vertex]
        simp only [List.length_append, List.length_cons, List.length_nil]
        omega
    · simp only [List.map_cons]
      exact List.nodup_cons.mpr ⟨alookup_none_not_mem hmiss2, ok2.edge_nodup⟩
    · intro p hp
      obtain ⟨h1, h2, h3⟩ := ok2.vertex_sound p hp
      refine ⟨h1, h2, ?_⟩
      rw [hs']
      dsimp only [Mesh.add_vertex]
      simp only [List.length_append, List.length_cons, List.length_nil]
      omega
    · exact ok2.vertex_nodup
    · rw [hs']
      dsimp only [Mesh.add_vertex]
      simp only [List.length_append, List.length_cons, List.length_nil]
      have hcnt := ok2.count
      omega
  · -- SExt s s'
    refine SExt.trans (SExt.trans ext1 ext2) ?_
    constructor
    · exact fun _ _ h => h
    · intro k dd hk
      exact alookup_prepend _ _ hmiss2 hk
    · exact fun _ _ h => h
    · intro i he h
      rw [hs']
      exact h
    · intro i f h
      rw [hs']
      exact h
    · rw [hs']
      dsimp only [Mesh.add_vertex]
      simp
    · exact le_refl _
    · exact le_refl _
  · -- the generated output vertex sits at the edge-point formula position
    rw [hs', hd]
    dsimp only
    rw [← hformula]
    exact add_vertex_vertex_new
  · -- the output only grew by empty-incidence vertices
    exact newVerticesEmpty_trans hnv1 (newVerticesEmpty_trans hnv2
      (newVerticesEmpty_add_vertex _ _))
  · -- both adjacent face points are cached afterwards
    intro hee heq
    rw [hce] at heq
    injection heq with heq
    subst heq
    constructor
    · exact ⟨d1, ext2.fd _ _ hl1⟩
    · intro ohee hoeq
      rw [hohe] at hoeq
      injection hoeq with hoeq
      subst hoeq
      exact ⟨d2, hl2⟩

/-- `edge_data_mut` succeeds on every live input halfedge and returns the
cached data for the canonical edge id, extending the state soundly. -/
lemma edge_data_mut_spec {input : Mesh} {s : SubState} {hid : Nat}
    (inv : Invariants input) (ok : CacheOK input s)
    (hmem : hid ∈ halfedgeIdList input) :
    ∃ d s' c, input.peek_same_halfedge hid = some c ∧
      edge_data_mut input hid s = some (d, s') ∧
      CacheOK input s' ∧ SExt s s' ∧
      alookup s'.edgeData c = some d ∧
      input.edge_center c = some d.mid_point ∧
      s'.vertexData = s.vertexData ∧
      s'.output.halfedges = s.output.halfedges ∧
      s'.output.faces = s.output.faces ∧
      NewVerticesEmpty s.output s'.output := by
  obtain ⟨he0, hhe0⟩ := halfedge_some_of_mem hmem
  have hpeek := inv_peek_some inv hhe0
  cases hhit : alookup s.edgeData (min hid he0.opposite) with
  | some d =>
    refine ⟨d, s, min hid he0.opposite, hpeek, ?_, ok, SExt.refl s, hhit, ?_,
      rfl, rfl, rfl, newVerticesEmpty_refl _⟩
    · rw [edge_data_mut, hpeek, bind_some_eq]
      dsimp only
      rw [hhit]
      rfl
    · exact (ok.edge_sound _ (alookup_some_mem hhit)).2.2.1
  | none =>
    obtain ⟨d, s', hrun, ok', ext, hpeek2, hedcons, hmid, hvtx, hvd, hhe, hfc, hnv, hfcached⟩ :=
      edge_data_mut_miss_spec inv ok hhe0 hhit
    refine ⟨d, s', min hid he0.opposite, hpeek, hrun, ok', ext, ?_, hmid, hvd, hhe, hfc, hnv⟩
    rw [hedcons, alookup_cons, if_pos rfl]

/-- The incidence-loop of `vertex_data_mut` collects the adjacent face-point
values and raw edge midpoints in order, extending the state soundly. -/
lemma collectVertexData_spec {input : Mesh} (inv : Invariants input) :
    ∀ (hl : List Nat) (fas ems : List Point3) (s : SubState), CacheOK input s →
      (∀ h ∈ hl, h ∈ halfedgeIdList input) →
      ∃ s', collectVertexData input hl fas ems s =
          some (fas ++ hl.map (fun h => faceCenterOf input (faceOfHalfedge input h)),
                ems ++ hl.map (fun h => edgeMidOf input (canonOf input h)), s') ∧
        CacheOK input s' ∧ SExt s s' ∧
        s'.vertexData = s.vertexData ∧
        s'.output.halfedges = s.output.halfedges ∧
        s'.output.faces = s.output.faces ∧
        NewVerticesEmpty s.output s'.output := by
  intro hl
  induction hl with
  | nil =>
    intro fas ems s ok _
    refine ⟨s, ?_, ok, SExt.refl s, rfl, rfl, rfl, newVerticesEmpty_refl _⟩
    rw [collectVertexData]
    simp
  | cons hid rest ih =>
    intro fas ems s ok hall
    have hmem : hid ∈ halfedgeIdList input := hall hid (List.mem_cons_self _ _)
    obtain ⟨he, hhe⟩ := halfedge_some_of_mem hmem
    have hfmem : he.face ∈ faceIdList input := (inv_coverage_face inv hhe).1
    obtain ⟨d1, s1, hfd1, ok1, ext1, hl1, hc1, he1, hv1, hh1, hfc1, hnv1⟩ :=
      face_data_mut_spec inv ok hfmem
    obtain ⟨d2, s2, c, hpeek, hrun2, ok2, ext2, hl2, hmid2, hvd2, hhe2, hfc2, hnv2⟩ :=
      edge_data_mut_spec inv ok1 hmem
    obtain ⟨s3, hrun3, ok3, ext3, hvd3, hhe3, hfc3, hnv3⟩ :=
      ih (fas ++ [d1.average_of_points]) (ems ++ [d2.mid_point]) s2 ok2
        (fun h hh => hall h (List.mem_cons_of_mem _ hh))
    have hface_val : faceCenterOf input (faceOfHalfedge input hid) = d1.average_of_points := by
      rw [faceOfHalfedge, hhe]
      dsimp only [Option.map_some', Option.getD_some]
      rw [faceCenterOf, hc1]
      rfl
    have hmid_val : edgeMidOf input (canonOf input hid) = d2.mid_point := by
      rw [canonOf, hpeek]
      dsimp only [Option.getD_some]
      rw [edgeMidOf, hmid2]
      rfl
    refine ⟨s3, ?_, ok3, SExt.trans (SExt.trans ext1 ext2) ext3,
      by rw [hvd3, hvd2, hv1], by rw [hhe3, hhe2, hh1], by rw [hfc3, hfc2, hfc1],
      newVerticesEmpty_trans hnv1 (newVerticesEmpty_trans hnv2 hnv3)⟩
    rw [collectVertexData, hhe, bind_some_eq, hfd1, bind_some_eq]
    dsimp only
    rw [hrun2, bind_some_eq]
    dsimp only
    rw [hrun3]
    simp only [List.map_cons, hface_val, hmid_val, List.append_assoc,
      List.singleton_append]

/-- `vertex_data_mut` on a cache miss: collects per-incident-halfedge face
points and raw midpoints, computes `(2*E + F + P*|n-3|)/n`, adds exactly one
new output vertex there, and caches the generated id under the vertex id. -/
lemma vertex_data_mut_miss_spec {input : Mesh} {s : SubState} {vid : Nat}
    (inv : Invariants input) (ok : CacheOK input s)
    (hmem : vid ∈ vertexIdList input)
    (hmiss : alookup s.vertexData vid = none) :
    ∃ d s', vertex_data_mut input vid s = some (d, s') ∧
      CacheOK input s' ∧ SExt s s' ∧
      s'.vertexData = (vid, d) :: s.vertexData ∧
      alookup s'.vertexData vid = some d ∧
      s'.output.vertex d.generated_vertex_id =
        some ⟨vertexPointFormula input vid, []⟩ ∧
      s'.output.halfedges = s.output.halfedges ∧
      s'.output.faces = s.output.faces ∧
      NewVerticesEmpty s.output s'.output := by
  obtain ⟨v, hv⟩ := vertex_some_of_mem hmem
  have hinc := optP_elim (inv.incidence vid hmem) hv
  obtain ⟨-, -, hincall⟩ := hinc
  have hallmem : ∀ h ∈ v.halfedges, h ∈ halfedgeIdList input := by
    intro h hh
    obtain ⟨he, hhe, -⟩ := optP_some (hincall h hh)
    exact mem_of_halfedge_some hhe
  obtain ⟨s1, hcol, ok1, ext1, hvd1, hhe1, hfc1, hnv1⟩ :=
    collectVertexData_spec inv v.halfedges [] [] s ok hallmem
  set fas := ([] : List Point3) ++
    v.halfedges.map (fun h => faceCenterOf input (faceOfHalfedge input h)) with hfas
  set ems := ([] : List Point3) ++
    v.halfedges.map (fun h => edgeMidOf input (canonOf input h)) with hems
  set pos := (((Point3.centroid ems).smul 2 + Point3.centroid fas)
    + v.position.smul ((((fas.length : Int) - 3).natAbs : Nat) : Rat)).divQ
      (fas.length : Rat) with hpos
  set d : VertexData := ⟨s1.output.vertices.length + 1⟩ with hd
  set s' : SubState := { s1 with vertexData := (vid, d) :: s1.vertexData, output := (s1.output.add_vertex pos).1 } with hs'
  have hmiss1 : alookup s1.vertexData vid = none := by rw [hvd1]; exact hmiss
  have hrun : vertex_data_mut input vid s = some (d, s') := by
    rw [vertex_data_mut, hmiss]
    dsimp only
    rw [hv, bind_some_eq, hcol, bind_some_eq]
    dsimp only
    rfl
  have hformula : pos = vertexPointFormula input vid := by
    rw [vertexPointFormula, hv]
    dsimp only
    rw [hpos, hfas, hems]
    simp only [List.nil_append, List.length_map]
  refine ⟨d, s', hrun, ?_, ?_, by rw [hs', hvd1], ?_, ?_,
    by rw [hs']; exact hhe1, by rw [hs']; exact hfc1,
    newVerticesEmpty_trans hnv1 (newVerticesEmpty_add_vertex _ _)⟩
  · constructor
    · intro p hp
      obtain ⟨h1, h2, h3, h4⟩ := ok1.face_sound p hp
      refine ⟨h1, h2, h3, ?_⟩
      rw [hs']
      dsimp only [Mesh.add_vertex]
      simp only [List.length_append, List.length_cons, List.length_nil]
      omega
    · exact ok1.face_nodup
    · intro p hp
      obtain ⟨h1, h2, h3, h4, h5⟩ := ok1.edge_sound p hp
      refine ⟨h1, h2, h3, h4, ?_⟩
      rw [hs']
      dsimp only [Mesh.add_vertex]
      simp only [List.length_append, List.length_cons, List.length_nil]
      omega
    · exact ok1.edge_nodup
    · intro p hp
      rcases List.mem_cons.mp hp with hp | hp
      · subst hp
        refine ⟨hmem, by dsimp only; omega, ?_⟩
        rw [hs']
        dsimp only [Mesh.add_vertex]
        simp
      · obtain ⟨h1, h2, h3⟩ := ok1.vertex_sound p hp
        refine ⟨h1, h2, ?_⟩
        rw [hs']
        dsimp only [Mesh.add_vertex]
        simp only [List.length_append, List.length_cons, List.length_nil]
        omega
    · simp only [List.map_cons]
      exact List.nodup_cons.mpr ⟨alookup_none_not_mem hmiss1, ok1.vertex_nodup⟩
    · rw [hs']
      dsimp only [Mesh.add_vertex]
      simp only [List.length_append, List.length_cons, List.length_nil]
      have hcnt := ok1.count
      omega
  · refine SExt.trans ext1 ?_
    constructor
    · exact fun _ _ h => h
    · exact fun _ _ h => h
    · intro k dd hk
      exact alookup_prepend _ _ hmiss1 hk
    · intro i he h
      rw [hs']
      exact h
    · intro i f h
      rw [hs']
      exact h
    · rw [hs']
      dsimp only [Mesh.add_vertex]
      simp
    · exact le_refl _
    · exact le_refl _
  · rw [hs']
    dsimp only
    rw [alookup_cons, if_pos rfl]
  · rw [hs', hd]
    dsimp only
    rw [← hformula]
    exact add_vertex_vertex_new

/-- `vertex_data_mut` succeeds on every live input vertex. -/
lemma vertex_data_mut_spec {input : Mesh} {s : SubState} {vid : Nat}
    (inv : Invariants input) (ok : CacheOK input s)
    (hmem : vid ∈ vertexIdList input) :
    ∃ d s', vertex_data_mut input vid s = some (d, s') ∧
      CacheOK input s' ∧ SExt s s' ∧
      alookup s'.vertexData vid = some d ∧
      s'.output.halfedges = s.output.halfedges ∧
      s'.output.faces = s.output.faces ∧
      NewVerticesEmpty s.output s'.output := by
  cases hhit : alookup s.vertexData vid with
  | some d =>
    refine ⟨d, s, ?_, ok, SExt.refl s, hhit, rfl, rfl, newVerticesEmpty_refl _⟩
    rw [vertex_data_mut, hhit]
  | none =>
    obtain ⟨d, s', hrun, ok', ext, hcons, hl, hvtx, hhe, hfc, hnv⟩ :=
      vertex_data_mut_miss_spec inv ok hmem hhit
    exact ⟨d, s', hrun, ok', ext, hl, hhe, hfc, hnv⟩

/-- One pass of the `added_halfedges` registration loop: the halfedge gets
its `face` and `vertex` fields assigned, the target vertex absorbs it into
its incidence set, and nothing else changes. -/
lemma registerCorner_spec {m : Mesh} {q hid vid : Nat} {he : Halfedge} {v : Vertex}
    (hhe : m.halfedge hid = some he) (hv : m.vertex vid = some v) :
    ∃ m', registerCorner m q hid vid = some m' ∧
      m'.halfedges.length = m.halfedges.length ∧
      m'.faces = m.faces ∧
      m'.vertices.length = m.vertices.length ∧
      m'.halfedge hid = some ⟨vid, q, he.next, he.opposite⟩ ∧
      (∀ i, i ≠ hid → m'.halfedge i = m.halfedge i) ∧
      (∀ i v', m'.vertex i = some v' → ∃ v0, m.vertex i = some v0 ∧
        v'.position = v0.position ∧
        ∀ h ∈ v'.halfedges, h ∈ v0.halfedges ∨ (h = hid ∧ i = vid)) := by
  obtain ⟨m1, hrun1, hh1, hf1, hvl1, hvat1, hvother1⟩ := insertVertexHalfedge_spec hid hv
  have hhe1 : m1.halfedge hid = some he := by rw [halfedge_congr hh1]; exact hhe
  obtain ⟨m2, hrun2, hv2, hf2, hhl2, hhat2, hhother2⟩ := setHalfedgeFace_spec q hhe1
  have hhe2 : m2.halfedge hid = some { he with face := q } := hhat2
  obtain ⟨m3, hrun3, hv3, hf3, hhl3, hhat3, hhother3⟩ := setHalfedgeVertex_spec vid hhe2
  refine ⟨m3, ?_, ?_, ?_, ?_, ?_, ?_, ?_⟩
  · rw [registerCorner, hrun1, bind_some_eq, hrun2, bind_some_eq, hrun3]
  · rw [hhl3, hhl2, hh1]
  · rw [hf3, hf2, hf1]
  · rw [hv3, hv2]
    exact hvl1
  · exact hhat3
  · intro i hne
    rw [hhother3 i hne, hhother2 i hne, halfedge_congr hh1]
  · intro i v' hv'
    have hv'2 : m2.vertex i = some v' := by rw [← vertex_congr hv3]; exact hv'
    have hv'1 : m1.vertex i = some v' := by rw [← vertex_congr hv2]; exact hv'2
    by_cases hi : i = vid
    · subst hi
      rw [hvat1] at hv'1
      injection hv'1 with hv'1
      refine ⟨v, hv, by rw [← hv'1], ?_⟩
      intro h hh
      rw [← hv'1] at hh
      dsimp only at hh
      by_cases hmem : hid ∈ v.halfedges
      · rw [if_pos hmem] at hh
        exact Or.inl hh
      · rw [if_neg hmem] at hh
        rcases List.mem_append.mp hh with hh | hh
        · exact Or.inl hh
        · simp only [List.mem_singleton] at hh
          exact Or.inr ⟨hh, rfl⟩
    · rw [hvother1 i hi] at hv'1
      exact ⟨v', hv'1, rfl, fun h hh => Or.inl hh⟩

/-- The representative-assignment and `next`-chaining of one new quad. -/
lemma wireQuad_spec {m : Mesh} {fid h1 h2 h3 h4 : Nat} {fc : Face}
    {he1 he2 he3 he4 : Halfedge}
    (hfc : m.face fid = some fc)
    (hh1 : m.halfedge h1 = some he1) (hh2 : m.halfedge h2 = some he2)
    (hh3 : m.halfedge h3 = some he3) (hh4 : m.halfedge h4 = some he4)
    (d12 : h1 ≠ h2) (d13 : h1 ≠ h3) (d14 : h1 ≠ h4)
    (d23 : h2 ≠ h3) (d24 : h2 ≠ h4) (d34 : h3 ≠ h4) :
    ∃ m', wireQuad m fid h1 h2 h3 h4 = some m' ∧
      m'.vertices = m.vertices ∧
      m'.halfedges.length = m.halfedges.length ∧
      m'.faces.length = m.faces.length ∧
      m'.face fid = some ⟨h1⟩ ∧
      (∀ i, i ≠ fid → m'.face i = m.face i) ∧
      m'.halfedge h1 = some { he1 with next := h2 } ∧
      m'.halfedge h2 = some { he2 with next := h3 } ∧
      m'.halfedge h3 = some { he3 with next := h4 } ∧
      m'.halfedge h4 = some { he4 with next := h1 } ∧
      (∀ i, i ≠ h1 → i ≠ h2 → i ≠ h3 → i ≠ h4 → m'.halfedge i = m.halfedge i) := by
  obtain ⟨mA, hrunA, hvA, hheA, hflA, hfatA, hfotherA⟩ := setFaceHalfedge_spec h1 hfc
  have hh1A : mA.halfedge h1 = some he1 := by rw [halfedge_congr hheA]; exact hh1
  obtain ⟨mB, hrunB, hvB, hfB, hhlB, hhatB, hhotherB⟩ := link_halfedges_spec h2 hh1A
  have hh2B : mB.halfedge h2 = some he2 := by
    rw [hhotherB _ (Ne.symm d12), halfedge_congr hheA]; exact hh2
  obtain ⟨mC, hrunC, hvC, hfC, hhlC, hhatC, hhotherC⟩ := link_halfedges_spec h3 hh2B
  have hh3C : mC.halfedge h3 = some he3 := by
    rw [hhotherC _ (Ne.symm d23), hhotherB _ (Ne.symm d13), halfedge_congr hheA]; exact hh3
  obtain ⟨mD, hrunD, hvD, hfD, hhlD, hhatD, hhotherD⟩ := link_halfedges_spec h4 hh3C
  have hh4D : mD.halfedge h4 = some he4 := by
    rw [hhotherD _ (Ne.symm d34), hhotherC _ (Ne.symm d24), hhotherB _ (Ne.symm d14),
      halfedge_congr hheA]
    exact hh4
  obtain ⟨mE, hrunE, hvE, hfE, hhlE, hhatE, hhotherE⟩ := link_halfedges_spec h1 hh4D
  refine ⟨mE, ?_, ?_, ?_, ?_, ?_, ?_, ?_, ?_, ?_, ?_, ?_⟩
  · rw [wireQuad, hrunA, bind_some_eq, hrunB, bind_some_eq, hrunC, bind_some_eq,
      hrunD, bind_some_eq, hrunE]
  · rw [hvE, hvD, hvC, hvB, hvA]
  · rw [hhlE, hhlD, hhlC, hhlB]
    exact congrArg List.length hheA
  · rw [hfE, hfD, hfC, hfB]
    exact hflA
  · rw [face_congr hfE, face_congr hfD, face_congr hfC, face_congr hfB]
    exact hfatA
  · intro i hne
    rw [face_congr hfE, face_congr hfD, face_congr hfC, face_congr hfB, hfotherA i hne]
  · rw [hhotherE _ d14, hhotherD _ d13, hhotherC _ d12]
    exact hhatB
  · rw [hhotherE _ d24, hhotherD _ d23]
    exact hhatC
  · rw [hhotherE _ d34]
    exact hhatD
  · exact hhatE
  · intro i n1 n2 n3 n4
    rw [hhotherE _ n4, hhotherD _ n3, hhotherC _ n2, hhotherB _ n1, halfedge_congr hheA]


/-- Core of the quad-emission step, stated over an already-staged mesh `mB`
(the output after one `add_face` and four `add_halfedge`s) with abstract
fresh ids, to keep the proof term small. -/
lemma addQuad_core (s : SubState) (mB : Mesh) (fid h1 h2 h3 h4 v1 v2 v3 v4 : Nat)
    (hout : OutMeshOK s.output)
    (b1 : 1 ≤ v1 ∧ v1 ≤ s.output.vertices.length)
    (b2 : 1 ≤ v2 ∧ v2 ≤ s.output.vertices.length)
    (b3 : 1 ≤ v3 ∧ v3 ≤ s.output.vertices.length)
    (b4 : 1 ≤ v4 ∧ v4 ≤ s.output.vertices.length)
    (hBv : mB.vertices = s.output.vertices)
    (hBfl : mB.faces.length = s.output.faces.length + 1)
    (hBhl : mB.halfedges.length = s.output.halfedges.length + 4)
    (hfid : fid = s.output.faces.length + 1)
    (hid1 : h1 = s.output.halfedges.length + 1)
    (hid2 : h2 = s.output.halfedges.length + 2)
    (hid3 : h3 = s.output.halfedges.length + 3)
    (hid4 : h4 = s.output.halfedges.length + 4)
    (hB1 : mB.halfedge h1 = some ⟨0, 0, 0, 0⟩)
    (hB2 : mB.halfedge h2 = some ⟨0, 0, 0, 0⟩)
    (hB3 : mB.halfedge h3 = some ⟨0, 0, 0, 0⟩)
    (hB4 : mB.halfedge h4 = some ⟨0, 0, 0, 0⟩)
    (hBold : ∀ i, i ≤ s.output.halfedges.length → mB.halfedge i = s.output.halfedge i)
    (hBface : mB.face fid = some ⟨0⟩)
    (hBfold : ∀ i, i ≤ s.output.faces.length → mB.face i = s.output.face i) :
    ∃ s', (do
        let o1 ← registerCorner mB fid h1 v1
        let o2 ← registerCorner o1 fid h2 v2
        let o3 ← registerCorner o2 fid h3 v3
        let o4 ← registerCorner o3 fid h4 v4
        let o5 ← wireQuad o4 fid h1 h2 h3 h4
        pure { s with output := o5 } : Option SubState) = some s' ∧
      OutMeshOK s'.output ∧ SExt s s' ∧
      s'.faceData = s.faceData ∧ s'.edgeData = s.edgeData ∧
      s'.vertexData = s.vertexData ∧
      s'.output.vertices.length = s.output.vertices.length ∧
      s'.output.faces.length = s.output.faces.length + 1 ∧
      s'.output.halfedges.length = s.output.halfedges.length + 4 := by
  have hBvl : mB.vertices.length = s.output.vertices.length := congrArg List.length hBv
  have d12 : h1 ≠ h2 := by omega
  have d13 : h1 ≠ h3 := by omega
  have d14 : h1 ≠ h4 := by omega
  have d23 : h2 ≠ h3 := by omega
  have d24 : h2 ≠ h4 := by omega
  have d34 : h3 ≠ h4 := by omega
  obtain ⟨w1, hw1⟩ := vertex_some_of_mem (m := mB)
    (by rw [mem_vertexIdList, hBvl]; omega : v1 ∈ vertexIdList mB)
  obtain ⟨mC1, hrun1, hC1hl, hC1f, hC1vl, hC1at, hC1other, hC1vtx⟩ :=
    registerCorner_spec (q := fid) hB1 hw1
  obtain ⟨w2, hw2⟩ := vertex_some_of_mem (m := mC1)
    (by rw [mem_vertexIdList, hC1vl, hBvl]; omega : v2 ∈ vertexIdList mC1)
  have hC1at2 : mC1.halfedge h2 = some ⟨0, 0, 0, 0⟩ := by
    rw [hC1other _ (Ne.symm d12)]; exact hB2
  obtain ⟨mC2, hrun2, hC2hl, hC2f, hC2vl, hC2at, hC2other, hC2vtx⟩ :=
    registerCorner_spec (q := fid) hC1at2 hw2
  obtain ⟨w3, hw3⟩ := vertex_some_of_mem (m := mC2)
    (by rw [mem_vertexIdList, hC2vl, hC1vl, hBvl]; omega : v3 ∈ vertexIdList mC2)
  have hC2at3 : mC2.halfedge h3 = some ⟨0, 0, 0, 0⟩ := by
    rw [hC2other _ (Ne.symm d23), hC1other _ (Ne.symm d13)]; exact hB3
  obtain ⟨mC3, hrun3, hC3hl, hC3f, hC3vl, hC3at, hC3other, hC3vtx⟩ :=
    registerCorner_spec (q := fid) hC2at3 hw3
  obtain ⟨w4, hw4⟩ := vertex_some_of_mem (m := mC3)
    (by rw [mem_vertexIdList, hC3vl, hC2vl, hC1vl, hBvl]; omega : v4 ∈ vertexIdList mC3)
  have hC3at4 : mC3.halfedge h4 = some ⟨0, 0, 0, 0⟩ := by
    rw [hC3other _ (Ne.symm d34), hC2other _ (Ne.symm d24), hC1other _ (Ne.symm d14)]
    exact hB4
  obtain ⟨mC4, hrun4, hC4hl, hC4f, hC4vl, hC4at, hC4other, hC4vtx⟩ :=
    registerCorner_spec (q := fid) hC3at4 hw4
  have hq1 : mC4.halfedge h1 = some ⟨v1, fid, 0, 0⟩ := by
    rw [hC4other _ d14, hC3other _ d13, hC2other _ d12]; exact hC1at
  have hq2 : mC4.halfedge h2 = some ⟨v2, fid, 0, 0⟩ := by
    rw [hC4other _ d24, hC3other _ d23]; exact hC2at
  have hq3 : mC4.halfedge h3 = some ⟨v3, fid, 0, 0⟩ := by
    rw [hC4other _ d34]; exact hC3at
  have hq4 : mC4.halfedge h4 = some ⟨v4, fid, 0, 0⟩ := hC4at
  have hCface : mC4.face fid = some ⟨0⟩ := by
    rw [face_congr hC4f, face_congr hC3f, face_congr hC2f, face_congr hC1f]
    exact hBface
  obtain ⟨mW, hrunW, hWv, hWhl, hWfl, hWfat, hWfother, hWn1, hWn2, hWn3, hWn4, hWhother⟩ :=
    wireQuad_spec hCface hq1 hq2 hq3 hq4 d12 d13 d14 d23 d24 d34
  have hWvl : mW.vertices.length = s.output.vertices.length := by
    rw [hWv, hC4vl, hC3vl, hC2vl, hC1vl, hBvl]
  have hWfl' : mW.faces.length = s.output.faces.length + 1 := by
    rw [hWfl, congrArg List.length hC4f, congrArg List.length hC3f,
      congrArg List.length hC2f, congrArg List.length hC1f, hBfl]
  have hWhl' : mW.halfedges.length = s.output.halfedges.length + 4 := by
    rw [hWhl, hC4hl, hC3hl, hC2hl, hC1hl, hBhl]
  have hstableH : ∀ i he, s.output.halfedge i = some he → mW.halfedge i = some he := by
    intro i he hi
    have hmem := mem_of_halfedge_some hi
    rw [mem_halfedgeIdList] at hmem
    have n1 : i ≠ h1 := by omega
    have n2 : i ≠ h2 := by omega
    have n3 : i ≠ h3 := by omega
    have n4 : i ≠ h4 := by omega
    rw [hWhother i n1 n2 n3 n4, hC4other _ n4, hC3other _ n3, hC2other _ n2,
      hC1other _ n1, hBold i hmem.2]
    exact hi
  have hstableF : ∀ i f, s.output.face i = some f → mW.face i = some f := by
    intro i f hi
    have hmem := mem_of_face_some hi
    rw [mem_faceIdList] at hmem
    have hne : i ≠ fid := by omega
    rw [hWfother i hne, face_congr hC4f, face_congr hC3f, face_congr hC2f,
      face_congr hC1f, hBfold i hmem.2]
    exact hi
  refine ⟨{ s with output := mW }, ?_, ?_, ?_, rfl, rfl, rfl, hWvl, hWfl', hWhl'⟩
  · rw [hrun1, bind_some_eq, hrun2, bind_some_eq, hrun3, bind_some_eq,
      hrun4, bind_some_eq, hrunW, bind_some_eq, pure_eq_some]
  · constructor
    · intro fid' hfid'
      rw [mem_faceIdList, hWfl'] at hfid'
      by_cases hnew : fid' = fid
      · subst hnew
        refine ⟨⟨h1⟩, ⟨v1, fid', h2, 0⟩, ⟨v2, fid', h3, 0⟩,
          ⟨v3, fid', h4, 0⟩, ⟨v4, fid', h1, 0⟩, hWfat, hWn1, hWn2, hWn3,
          hWn4, rfl, rfl, rfl, rfl, rfl, Ne.symm d12, Ne.symm d13, Ne.symm d14,
          d23, d24, d34⟩
      · have hold : fid' ∈ faceIdList s.output := by
          rw [mem_faceIdList]
          omega
        exact quadOK_mono hstableF hstableH (hout.quad fid' hold)
    · intro vid v hv hh hmem
      rw [vertex_congr hWv] at hv
      obtain ⟨v3', hv3', hp3, hm3⟩ := hC4vtx vid v hv
      obtain ⟨v2', hv2', hp2, hm2⟩ := hC3vtx vid v3' hv3'
      obtain ⟨v1', hv1', hp1, hm1⟩ := hC2vtx vid v2' hv2'
      obtain ⟨v0', hv0', hp0, hm0'⟩ := hC1vtx vid v1' hv1'
      rw [vertex_congr hBv] at hv0'
      rcases hm3 hh hmem with hin | ⟨rfl, rfl⟩
      rotate_left
      · exact ⟨_, hWn4, rfl⟩
      rcases hm2 hh hin with hin | ⟨rfl, rfl⟩
      rotate_left
      · exact ⟨_, hWn3, rfl⟩
      rcases hm1 hh hin with hin | ⟨rfl, rfl⟩
      rotate_left
      · exact ⟨_, hWn2, rfl⟩
      rcases hm0' hh hin with hin | ⟨rfl, rfl⟩
      rotate_left
      · exact ⟨_, hWn1, rfl⟩
      obtain ⟨he, hhe, hvert⟩ := hout.inc vid v0' hv0' hh hin
      exact ⟨he, hstableH _ _ hhe, hvert⟩
    · intro i he hi
      have hmem := mem_of_halfedge_some hi
      rw [mem_halfedgeIdList, hWhl'] at hmem
      by_cases c1 : i = h1
      · subst c1; rw [hWn1] at hi; injection hi with hi; rw [← hi]
      by_cases c2 : i = h2
      · subst c2; rw [hWn2] at hi; injection hi with hi; rw [← hi]
      by_cases c3 : i = h3
      · subst c3; rw [hWn3] at hi; injection hi with hi; rw [← hi]
      by_cases c4 : i = h4
      · subst c4; rw [hWn4] at hi; injection hi with hi; rw [← hi]
      · have hiH : i ≤ s.output.halfedges.length := by omega
        rw [hWhother i c1 c2 c3 c4, hC4other _ c4, hC3other _ c3, hC2other _ c2,
          hC1other _ c1, hBold i hiH] at hi
        exact hout.opp0 i he hi
    · intro i he hi
      have hmem := mem_of_halfedge_some hi
      rw [mem_halfedgeIdList, hWhl'] at hmem
      rw [hWvl]
      by_cases c1 : i = h1
      · subst c1; rw [hWn1] at hi; injection hi with hi; rw [← hi]; exact b1
      by_cases c2 : i = h2
      · subst c2; rw [hWn2] at hi; injection hi with hi; rw [← hi]; exact b2
      by_cases c3 : i = h3
      · subst c3; rw [hWn3] at hi; injection hi with hi; rw [← hi]; exact b3
      by_cases c4 : i = h4
      · subst c4; rw [hWn4] at hi; injection hi with hi; rw [← hi]; exact b4
      · have hiH : i ≤ s.output.halfedges.length := by omega
        rw [hWhother i c1 c2 c3 c4, hC4other _ c4, hC3other _ c3, hC2other _ c2,
          hC1other _ c1, hBold i hiH] at hi
        exact hout.hvlive i he hi
  · constructor
    · exact fun _ _ h => h
    · exact fun _ _ h => h
    · exact fun _ _ h => h
    · exact hstableH
    · exact hstableF
    · exact le_of_eq hWvl.symm
    · rw [hWhl']; omega
    · rw [hWfl']; omega

/-- `addQuad` always succeeds when the four target vertices are live: it adds
one face and four chained halfedges to the output, preserves the caches and
the output-mesh invariants, and leaves the vertex count unchanged. -/
lemma addQuad_spec {s : SubState} {v1 v2 v3 v4 : Nat}
    (hout : OutMeshOK s.output)
    (b1 : 1 ≤ v1 ∧ v1 ≤ s.output.vertices.length)
    (b2 : 1 ≤ v2 ∧ v2 ≤ s.output.vertices.length)
    (b3 : 1 ≤ v3 ∧ v3 ≤ s.output.vertices.length)
    (b4 : 1 ≤ v4 ∧ v4 ≤ s.output.vertices.length) :
    ∃ s', addQuad s v1 v2 v3 v4 = some s' ∧
      OutMeshOK s'.output ∧ SExt s s' ∧
      s'.faceData = s.faceData ∧ s'.edgeData = s.edgeData ∧
      s'.vertexData = s.vertexData ∧
      s'.output.vertices.length = s.output.vertices.length ∧
      s'.output.faces.length = s.output.faces.length + 1 ∧
      s'.output.halfedges.length = s.output.halfedges.length + 4 := by
  set rf := s.output.add_face with hrf
  set r1 := rf.1.add_halfedge with hr1
  set r2 := r1.1.add_halfedge with hr2
  set r3 := r2.1.add_halfedge with hr3
  set r4 := r3.1.add_halfedge with hr4
  have hrfh : rf.1.halfedges = s.output.halfedges := rfl
  have hid1 : r1.2 = s.output.halfedges.length + 1 := rfl
  have hlen1 : r1.1.halfedges.length = s.output.halfedges.length + 1 := by
    rw [hr1, add_halfedge_halfedges, hrfh]
    simp only [List.length_append, List.length_cons, List.length_nil]
  have hid2 : r2.2 = s.output.halfedges.length + 2 := by
    rw [hr2, add_halfedge_snd, hlen1]
  have hlen2 : r2.1.halfedges.length = s.output.halfedges.length + 2 := by
    rw [hr2, add_halfedge_halfedges, List.length_append, hlen1]
    simp only [List.length_cons, List.length_nil]
  have hid3 : r3.2 = s.output.halfedges.length + 3 := by
    rw [hr3, add_halfedge_snd, hlen2]
  have hlen3 : r3.1.halfedges.length = s.output.halfedges.length + 3 := by
    rw [hr3, add_halfedge_halfedges, List.length_append, hlen2]
    simp only [List.length_cons, List.length_nil]
  have hid4 : r4.2 = s.output.halfedges.length + 4 := by
    rw [hr4, add_halfedge_snd, hlen3]
  have hlen4 : r4.1.halfedges.length = s.output.halfedges.length + 4 := by
    rw [hr4, add_halfedge_halfedges, List.length_append, hlen3]
    simp only [List.length_cons, List.length_nil]
  have hBv : r4.1.vertices = s.output.vertices := rfl
  have hBfl : r4.1.faces.length = s.output.faces.length + 1 := by
    rw [show r4.1.faces = s.output.faces ++ [⟨0⟩] from rfl]
    simp only [List.length_append, List.length_cons, List.length_nil]
  have hfid : rf.2 = s.output.faces.length + 1 := rfl
  have hB1 : r4.1.halfedge r1.2 = some ⟨0, 0, 0, 0⟩ := by
    rw [hr4, add_halfedge_halfedge_old (by simp only [hlen3, hid1]; omega)]
    rw [hr3, add_halfedge_halfedge_old (by simp only [hlen2, hid1]; omega)]
    rw [hr2, add_halfedge_halfedge_old (by simp only [hlen1, hid1]; omega)]
    rw [hr1]
    exact add_halfedge_halfedge_new
  have hB2 : r4.1.halfedge r2.2 = some ⟨0, 0, 0, 0⟩ := by
    rw [hr4, add_halfedge_halfedge_old (by simp only [hlen3, hid2]; omega)]
    rw [hr3, add_halfedge_halfedge_old (by simp only [hlen2, hid2]; omega)]
    rw [hr2]
    have e : r2.2 = r1.1.halfedges.length + 1 := by rw [hid2, hlen1]
    rw [e]
    exact add_halfedge_halfedge_new
  have hB3 : r4.1.halfedge r3.2 = some ⟨0, 0, 0, 0⟩ := by
    rw [hr4, add_halfedge_halfedge_old (by simp only [hlen3, hid3]; omega)]
    rw [hr3]
    have e : r3.2 = r2.1.halfedges.length + 1 := by rw [hid3, hlen2]
    rw [e]
    exact add_halfedge_halfedge_new
  have hB4 : r4.1.halfedge r4.2 = some ⟨0, 0, 0, 0⟩ := by
    rw [hr4]
    have e : r4.2 = r3.1.halfedges.length + 1 := by rw [hid4, hlen3]
    rw [e]
    exact add_halfedge_halfedge_new
  have hBold : ∀ i, i ≤ s.output.halfedges.length → r4.1.halfedge i = s.output.halfedge i := by
    intro i hi
    rw [hr4, add_halfedge_halfedge_old (by simp only [hlen3]; omega)]
    rw [hr3, add_halfedge_halfedge_old (by simp only [hlen2]; omega)]
    rw [hr2, add_halfedge_halfedge_old (by simp only [hlen1]; omega)]
    rw [hr1, add_halfedge_halfedge_old (by rw [hrfh]; omega)]
    rfl
  have hBface : r4.1.face rf.2 = some ⟨0⟩ := add_face_face_new (m := s.output)
  have hBfold : ∀ i, i ≤ s.output.faces.length → r4.1.face i = s.output.face i := by
    intro i hi
    exact add_face_face_old (m := s.output) hi
  exact addQuad_core s r4.1 rf.2 r1.2 r2.2 r3.2 r4.2 v1 v2 v3 v4 hout b1 b2 b3 b4
    hBv hBfl hlen4 hfid hid1 hid2 hid3 hid4 hB1 hB2 hB3 hB4 hBold hBface hBfold

/-- `CacheOK` transfers across states with identical caches and vertex count. -/
lemma cacheOK_transfer {input : Mesh} {s s' : SubState} (ok : CacheOK input s)
    (hf : s'.faceData = s.faceData) (he : s'.edgeData = s.edgeData)
    (hv : s'.vertexData = s.vertexData)
    (hl : s'.output.vertices.length = s.output.vertices.length) :
    CacheOK input s' := by
  constructor
  · intro p hp
    rw [hf] at hp
    obtain ⟨h1, h2, h3, h4⟩ := ok.face_sound p hp
    exact ⟨h1, h2, h3, by rw [hl]; exact h4⟩
  · rw [hf]; exact ok.face_nodup
  · intro p hp
    rw [he] at hp
    obtain ⟨h1, h2, h3, h4, h5⟩ := ok.edge_sound p hp
    exact ⟨h1, h2, h3, h4, by rw [hl]; exact h5⟩
  · rw [he]; exact ok.edge_nodup
  · intro p hp
    rw [hv] at hp
    obtain ⟨h1, h2, h3⟩ := ok.vertex_sound p hp
    exact ⟨h1, h2, by rw [hl]; exact h3⟩
  · rw [hv]; exact ok.vertex_nodup
  · rw [hf, he, hv, hl]; exact ok.count

/-- Cache hits survive state extension. -/
lemma edge_isSome_mono {s s' : SubState} {k : Nat} (ext : SExt s s')
    (h : (alookup s.edgeData k).isSome = true) :
    (alookup s'.edgeData k).isSome = true := by
  obtain ⟨d, hd⟩ := Option.isSome_iff_exists.mp h
  rw [ext.ed k d hd]
  rfl

lemma vertex_isSome_mono {s s' : SubState} {k : Nat} (ext : SExt s s')
    (h : (alookup s.vertexData k).isSome = true) :
    (alookup s'.vertexData k).isSome = true := by
  obtain ⟨d, hd⟩ := Option.isSome_iff_exists.mp h
  rw [ext.vd k d hd]
  rfl

lemma face_isSome_mono {s s' : SubState} {k : Nat} (ext : SExt s s')
    (h : (alookup s.faceData k).isSome = true) :
    (alookup s'.faceData k).isSome = true := by
  obtain ⟨d, hd⟩ := Option.isSome_iff_exists.mp h
  rw [ext.fd k d hd]
  rfl

/-- One corner of the inner loop: everything succeeds, the output gains
exactly one (quad) face, and the relevant edge and vertex points are cached
afterwards. -/
lemma processCorner_spec {input : Mesh} {s : SubState} {fvid hid : Nat}
    (inv : Invariants input) (ok : CacheOK input s) (hout : OutMeshOK s.output)
    (hmem : hid ∈ halfedgeIdList input)
    (hfv : 1 ≤ fvid ∧ fvid ≤ s.output.vertices.length) :
    ∃ s', processCorner input fvid hid s = some s' ∧
      CacheOK input s' ∧ OutMeshOK s'.output ∧ SExt s s' ∧
      s'.output.faces.length = s.output.faces.length + 1 ∧
      (alookup s'.edgeData (canonOf input hid)).isSome = true ∧
      (∀ he, input.halfedge hid = some he → ∀ nhe, input.halfedge he.next = some nhe →
        (alookup s'.vertexData nhe.vertex).isSome = true) := by
  obtain ⟨he, hhe⟩ := halfedge_some_of_mem hmem
  obtain ⟨nhe, hnhe⟩ := inv_next_live inv hhe
  have hnmem : he.next ∈ halfedgeIdList input := mem_of_halfedge_some hnhe
  obtain ⟨vv, hvv⟩ := inv_origin_live inv hnhe
  have hvmem : nhe.vertex ∈ vertexIdList input := mem_of_vertex_some hvv
  obtain ⟨d1, s1, c1, hpeek1, hrun1, ok1, ext1, hl1, hmid1, hvd1, hhe1, hfc1, hnv1⟩ :=
    edge_data_mut_spec inv ok hmem
  obtain ⟨d2, s2, c2, hpeek2, hrun2, ok2, ext2, hl2, hmid2, hvd2, hhe2, hfc2, hnv2⟩ :=
    edge_data_mut_spec inv ok1 hnmem
  obtain ⟨d3, s3, hrun3, ok3, ext3, hl3, hhe3, hfc3, hnv3⟩ :=
    vertex_data_mut_spec inv ok2 hvmem
  have hout3 : OutMeshOK s3.output := by
    apply outMeshOK_grow hnv3 hhe3 hfc3
    apply outMeshOK_grow hnv2 hhe2 hfc2
    exact outMeshOK_grow hnv1 hhe1 hfc1 hout
  have bfv : 1 ≤ fvid ∧ fvid ≤ s3.output.vertices.length := by
    have := ext1.vlen
    have := ext2.vlen
    have := ext3.vlen
    omega
  have hl1' : alookup s3.edgeData c1 = some d1 :=
    ext3.ed _ _ (ext2.ed _ _ hl1)
  have be1 : 1 ≤ d1.generated_vertex_id ∧
      d1.generated_vertex_id ≤ s3.output.vertices.length := by
    have := ok3.edge_sound _ (alookup_some_mem hl1')
    exact ⟨this.2.2.2.1, this.2.2.2.2⟩
  have hl2' : alookup s3.edgeData c2 = some d2 := ext3.ed _ _ hl2
  have be2 : 1 ≤ d2.generated_vertex_id ∧
      d2.generated_vertex_id ≤ s3.output.vertices.length := by
    have := ok3.edge_sound _ (alookup_some_mem hl2')
    exact ⟨this.2.2.2.1, this.2.2.2.2⟩
  have be3 : 1 ≤ d3.generated_vertex_id ∧
      d3.generated_vertex_id ≤ s3.output.vertices.length := by
    have := ok3.vertex_sound _ (alookup_some_mem hl3)
    exact ⟨this.2.1, this.2.2⟩
  obtain ⟨s4, hrun4, hout4, ext4, hf4, he4, hv4, hvl4, hfl4, hhl4⟩ :=
    @addQuad_spec s3 fvid d1.generated_vertex_id
      d3.generated_vertex_id d2.generated_vertex_id hout3 bfv be1 be3 be2
  refine ⟨s4, ?_, ?_, hout4, ?_, ?_, ?_, ?_⟩
  · rw [processCorner, hhe, bind_some_eq, hnhe, bind_some_eq, hrun1, bind_some_eq]
    dsimp only
    rw [hrun2, bind_some_eq]
    dsimp only
    rw [hrun3, bind_some_eq]
    exact hrun4
  · exact cacheOK_transfer ok3 hf4 he4 hv4 hvl4
  · exact SExt.trans (SExt.trans (SExt.trans ext1 ext2) ext3) ext4
  · rw [hfl4, congrArg List.length hfc3, congrArg List.length hfc2,
      congrArg List.length hfc1]
  · rw [canonOf, hpeek1]
    apply edge_isSome_mono ext4
    rw [Option.getD_some, hl1']
    rfl
  · intro he' hhe' nhe' hnhe'
    rw [hhe] at hhe'
    injection hhe' with hhe'
    subst hhe'
    rw [hnhe] at hnhe'
    injection hnhe' with hnhe'
    subst hnhe'
    apply vertex_isSome_mono ext4
    rw [hl3]
    rfl

/-- The inner corner loop over a list of live halfedges: every corner emits
one quad face, and afterwards every corner's canonical edge point and the
vertex point of every corner's far endpoint are cached. -/
lemma processCorners_spec {input : Mesh} {fvid : Nat} (inv : Invariants input) :
    ∀ (L : List Nat) (s : SubState), CacheOK input s → OutMeshOK s.output →
      (∀ h ∈ L, h ∈ halfedgeIdList input) →
      1 ≤ fvid ∧ fvid ≤ s.output.vertices.length →
      ∃ s', processCorners input fvid L s = some s' ∧
        CacheOK input s' ∧ OutMeshOK s'.output ∧ SExt s s' ∧
        s'.output.faces.length = s.output.faces.length + L.length ∧
        ∀ h ∈ L, (alookup s'.edgeData (canonOf input h)).isSome = true ∧
          (∀ he, input.halfedge h = some he →
            ∀ nhe, input.halfedge he.next = some nhe →
              (alookup s'.vertexData nhe.vertex).isSome = true) := by
  intro L
  induction L with
  | nil =>
    intro s ok hout _ _
    exact ⟨s, rfl, ok, hout, SExt.refl s, by simp, by simp⟩
  | cons hid rest ih =>
    intro s ok hout hall hfv
    obtain ⟨s1, hrun1, ok1, hout1, ext1, hfl1, hedge1, hvert1⟩ :=
      processCorner_spec inv ok hout (hall hid (List.mem_cons_self _ _)) hfv
    have hfv1 : 1 ≤ fvid ∧ fvid ≤ s1.output.vertices.length := by
      have := ext1.vlen
      omega
    obtain ⟨s2, hrun2, ok2, hout2, ext2, hfl2, hens2⟩ :=
      ih s1 ok1 hout1 (fun h hh => hall h (List.mem_cons_of_mem _ hh)) hfv1
    refine ⟨s2, ?_, ok2, hout2, SExt.trans ext1 ext2, ?_, ?_⟩
    · rw [processCorners, hrun1, bind_some_eq]
      exact hrun2
    · rw [hfl2, hfl1, List.length_cons]
      omega
    · intro h hh
      rcases List.mem_cons.mp hh with hh | hh
      · subst hh
        refine ⟨edge_isSome_mono ext2 hedge1, ?_⟩
        intro he hhe nhe hnhe
        exact vertex_isSome_mono ext2 (hvert1 he hhe nhe hnhe)
      · exact hens2 h hh

/-- One outer-loop iteration: processing face `fid` adds one quad per
boundary corner, caches the face point of `fid`, and caches the edge point
of every boundary halfedge and the vertex point of every boundary origin. -/
lemma processFace_spec {input : Mesh} {s : SubState} {fid : Nat}
    (inv : Invariants input) (ok : CacheOK input s) (hout : OutMeshOK s.output)
    (hmem : fid ∈ faceIdList input) :
    ∃ s', processFace input fid s = some s' ∧
      CacheOK input s' ∧ OutMeshOK s'.output ∧ SExt s s' ∧
      (alookup s'.faceData fid).isSome = true ∧
      (∃ f L, input.face fid = some f ∧ faceHalfedgeList input f.halfedge = some L ∧
        s'.output.faces.length = s.output.faces.length + L.length ∧
        ∀ h ∈ L, (alookup s'.edgeData (canonOf input h)).isSome = true ∧
          (alookup s'.vertexData (((input.halfedge h).map Halfedge.vertex).getD 0)).isSome
            = true) := by
  obtain ⟨f, L, hface, hlist, hlen3, hnodup, hLmem⟩ := inv_face_boundary inv hmem
  obtain ⟨d0, s0, hrun0, ok0, ext0, hl0, hc0, he0, hv0, hh0, hfc0, hnv0⟩ :=
    face_data_mut_spec inv ok hmem
  have hout0 : OutMeshOK s0.output := outMeshOK_grow hnv0 hh0 hfc0 hout
  have hfv0 : 1 ≤ d0.generated_vertex_id ∧
      d0.generated_vertex_id ≤ s0.output.vertices.length := by
    have := ok0.face_sound _ (alookup_some_mem hl0)
    exact ⟨this.2.2.1, this.2.2.2⟩
  have hallmem : ∀ h ∈ L, h ∈ halfedgeIdList input := by
    intro h hh
    obtain ⟨he, hhe, -⟩ := hLmem h hh
    exact mem_of_halfedge_some hhe
  obtain ⟨s', hrunC, okC, houtC, extC, hflC, hensC⟩ :=
    processCorners_spec inv L s0 ok0 hout0 hallmem hfv0
  refine ⟨s', ?_, okC, houtC, SExt.trans ext0 extC, ?_, f, L, hface, hlist, ?_, ?_⟩
  · rw [processFace, hrun0, bind_some_eq, hface, bind_some_eq, hlist, bind_some_eq]
    exact hrunC
  · apply face_isSome_mono extC
    rw [hl0]
    rfl
  · rw [hflC, congrArg List.length hfc0]
  · intro h hh
    obtain ⟨he, hhe, -⟩ := hLmem h hh
    obtain ⟨hedge, hvert⟩ := hensC h hh
    refine ⟨hedge, ?_⟩
    -- the origin of h is the far endpoint of its predecessor corner
    obtain ⟨-, -, -, hpred⟩ := faceHalfedgeList_props hlist
    obtain ⟨hp, hhp, hep, hhep, hnexteq⟩ := hpred h hh
    obtain ⟨hedgep, hvertp⟩ := hensC hp hhp
    have := hvertp hep hhep
    obtain ⟨nhe, hnhe⟩ : ∃ nhe, input.halfedge hep.next = some nhe := by
      rw [hnexteq]
      exact ⟨he, hhe⟩
    have hv := this nhe hnhe
    rw [hnexteq, hhe] at hnhe
    injection hnhe with hnhe
    rw [hhe]
    dsimp only [Option.map_some', Option.getD_some]
    rw [← hnhe] at hv
    exact hv

/-- The outer loop over a list of live faces. -/
lemma processFaces_spec {input : Mesh} (inv : Invariants input) :
    ∀ (fl : List Nat) (s : SubState), CacheOK input s → OutMeshOK s.output →
      (∀ fid ∈ fl, fid ∈ faceIdList input) →
      ∃ s', processFaces input fl s = some s' ∧
        CacheOK input s' ∧ OutMeshOK s'.output ∧ SExt s s' ∧
        s'.output.faces.length = s.output.faces.length + (fl.map (boundaryLen input)).sum ∧
        ∀ fid ∈ fl, (alookup s'.faceData fid).isSome = true ∧
          ∀ h ∈ boundaryOf input fid,
            (alookup s'.edgeData (canonOf input h)).isSome = true ∧
            (alookup s'.vertexData (originOf input h)).isSome = true := by
  intro fl
  induction fl with
  | nil =>
    intro s ok hout _
    exact ⟨s, rfl, ok, hout, SExt.refl s, by simp, by simp⟩
  | cons fid rest ih =>
    intro s ok hout hall
    obtain ⟨s1, hrun1, ok1, hout1, ext1, hf1, f, L, hface, hlist, hfl1, hens1⟩ :=
      processFace_spec inv ok hout (hall fid (List.mem_cons_self _ _))
    obtain ⟨s2, hrun2, ok2, hout2, ext2, hfl2, hens2⟩ :=
      ih s1 ok1 hout1 (fun x hx => hall x (List.mem_cons_of_mem _ hx))
    have hbnd : boundaryOf input fid = L := by
      rw [boundaryOf, hface, Option.some_bind, hlist]
      rfl
    refine ⟨s2, ?_, ok2, hout2, SExt.trans ext1 ext2, ?_, ?_⟩
    · rw [processFaces, hrun1, bind_some_eq]
      exact hrun2
    · rw [hfl2, hfl1, List.map_cons, List.sum_cons, boundaryLen, hbnd]
      omega
    · intro x hx
      rcases List.mem_cons.mp hx with hx | hx
      · subst hx
        refine ⟨face_isSome_mono ext2 hf1, ?_⟩
        intro h hh
        rw [hbnd] at hh
        obtain ⟨hedge, hvert⟩ := hens1 h hh
        refine ⟨edge_isSome_mono ext2 hedge, ?_⟩
        rw [originOf]
        exact vertex_isSome_mono ext2 hvert
      · exact hens2 x hx

/-- Two duplicate-free lists with the same members have the same length. -/
lemma length_eq_of_nodup_mem {l1 l2 : List Nat} (h1 : l1.Nodup) (h2 : l2.Nodup)
    (h : ∀ x, x ∈ l1 ↔ x ∈ l2) : l1.length = l2.length := by
  rw [← List.toFinset_card_of_nodup h1, ← List.toFinset_card_of_nodup h2]
  congr 1
  ext x
  simp only [List.mem_toFinset]
  exact h x

/-- Boundary members carry their face id. -/
lemma mem_boundaryOf_face {m : Mesh} (inv : Invariants m) {fid h : Nat}
    (hf : fid ∈ faceIdList m) (hh : h ∈ boundaryOf m fid) :
    ∃ he, m.halfedge h = some he ∧ he.face = fid := by
  obtain ⟨f, L, hface, hlist, -, -, hmem⟩ := inv_face_boundary inv hf
  have hbnd : boundaryOf m fid = L := by
    rw [boundaryOf, hface, Option.some_bind, hlist]
    rfl
  rw [hbnd] at hh
  exact hmem h hh

/-- Boundary lists of live faces are duplicate-free. -/
lemma boundaryOf_nodup {m : Mesh} (inv : Invariants m) {fid : Nat}
    (hf : fid ∈ faceIdList m) : (boundaryOf m fid).Nodup := by
  obtain ⟨f, L, hface, hlist, -, hnodup, -⟩ := inv_face_boundary inv hf
  have hbnd : boundaryOf m fid = L := by
    rw [boundaryOf, hface, Option.some_bind, hlist]
    rfl
  rw [hbnd]
  exact hnodup

/-- Every live halfedge occurs in some live face's boundary list. -/
lemma coverage_boundaryOf {m : Mesh} (inv : Invariants m) {h : Nat}
    (hm : h ∈ halfedgeIdList m) : ∃ fid ∈ faceIdList m, h ∈ boundaryOf m fid := by
  obtain ⟨fid, hfid, hcov⟩ := inv.coverage h hm
  obtain ⟨f, hface, hrest⟩ := optP_some hcov
  obtain ⟨L, hlist, hL⟩ := optP_some hrest
  refine ⟨fid, hfid, ?_⟩
  rw [boundaryOf, hface, Option.some_bind, hlist]
  exact hL

/-- The face boundaries partition the halfedge arena: the boundary degrees
of all faces sum to the total halfedge count. -/
lemma boundary_degree_sum {m : Mesh} (inv : Invariants m) :
    ((faceIdList m).map (boundaryLen m)).sum = m.halfedges.length := by
  have hmapmap : (faceIdList m).map (boundaryLen m)
      = ((faceIdList m).map (boundaryOf m)).map List.length := by
    rw [List.map_map]
    rfl
  rw [hmapmap, ← List.length_join]
  have hnodup : ((faceIdList m).map (boundaryOf m)).join.Nodup := by
    rw [List.nodup_join]
    constructor
    · intro l hl
      obtain ⟨fid, hfid, rfl⟩ := List.mem_map.mp hl
      exact boundaryOf_nodup inv hfid
    · rw [List.pairwise_map]
      apply List.Pairwise.imp_of_mem ?_ (faceIdList_nodup m)
      intro a b ha hb hne
      intro x hxa hxb
      obtain ⟨hea, hhea, hfa⟩ := mem_boundaryOf_face inv ha hxa
      obtain ⟨heb, hheb, hfb⟩ := mem_boundaryOf_face inv hb hxb
      rw [hhea] at hheb
      injection hheb with hheb
      subst hheb
      exact hne (hfa ▸ hfb ▸ rfl)
  have hhn : (halfedgeIdList m).length = m.halfedges.length := by
    rw [halfedgeIdList, List.length_map, List.length_range]
  rw [← hhn]
  apply length_eq_of_nodup_mem hnodup (halfedgeIdList_nodup m)
  intro x
  constructor
  · intro hx
    obtain ⟨l, hl, hxl⟩ := List.mem_join.mp hx
    obtain ⟨fid, hfid, rfl⟩ := List.mem_map.mp hl
    obtain ⟨he, hhe, -⟩ := mem_boundaryOf_face inv hfid hxl
    exact mem_of_halfedge_some hhe
  · intro hx
    obtain ⟨fid, hfid, hxb⟩ := coverage_boundaryOf inv hx
    exact List.mem_join.mpr ⟨boundaryOf m fid, List.mem_map_of_mem _ hfid, hxb⟩

/-- The master run of `generate`: on any input satisfying the §3 invariants
the subdivider succeeds, and the final state is fully characterized: one face
cache entry per input face, one edge cache entry per undirected input edge,
one vertex cache entry per input vertex, output vertex count `V + E + F`,
output face count `H`, and the output-mesh invariants hold. -/
lemma generate_master {input : Mesh} (inv : Invariants input) :
    ∃ s', generateState input = some s' ∧
      CacheOK input s' ∧ OutMeshOK s'.output ∧
      s'.faceData.length = input.faces.length ∧
      s'.edgeData.length = edgeCount input ∧
      s'.vertexData.length = input.vertices.length ∧
      s'.output.vertices.length =
        input.vertices.length + edgeCount input + input.faces.length ∧
      s'.output.faces.length = input.halfedges.length := by
  obtain ⟨s', hrun, ok, hout, -, hfl, hens⟩ :=
    processFaces_spec inv (faceIdList input) initState (cacheOK_init input)
      outMeshOK_init (fun _ h => h)
  have hfaces : s'.output.faces.length = input.halfedges.length := by
    rw [hfl]
    have h0 : initState.output.faces.length = 0 := rfl
    rw [h0, boundary_degree_sum inv]
    omega
  have hfdlen : s'.faceData.length = input.faces.length := by
    have hkn : (s'.faceData.map Prod.fst).length = s'.faceData.length :=
      List.length_map _ _
    rw [← hkn]
    have hfn : (faceIdList input).length = input.faces.length := by
      rw [faceIdList, List.length_map, List.length_range]
    rw [← hfn]
    apply length_eq_of_nodup_mem ok.face_nodup (faceIdList_nodup input)
    intro x
    constructor
    · intro hx
      obtain ⟨p, hp, rfl⟩ := List.mem_map.mp hx
      exact (ok.face_sound p hp).1
    · intro hx
      obtain ⟨d, hd⟩ := Option.isSome_iff_exists.mp (hens x hx).1
      exact alookup_isSome_mem_keys hd
  have hvdlen : s'.vertexData.length = input.vertices.length := by
    have hkn : (s'.vertexData.map Prod.fst).length = s'.vertexData.length :=
      List.length_map _ _
    rw [← hkn]
    have hvn : (vertexIdList input).length = input.vertices.length := by
      rw [vertexIdList, List.length_map, List.length_range]
    rw [← hvn]
    apply length_eq_of_nodup_mem ok.vertex_nodup (vertexIdList_nodup input)
    intro x
    constructor
    · intro hx
      obtain ⟨p, hp, rfl⟩ := List.mem_map.mp hx
      exact (ok.vertex_sound p hp).1
    · intro hx
      obtain ⟨v, hv, hprops⟩ := optP_some (inv.incidence x hx)
      obtain ⟨hne, -, hincall⟩ := hprops
      obtain ⟨h0, hh0⟩ := List.exists_mem_of_ne_nil _ hne
      obtain ⟨he0, hhe0, hvert0⟩ := optP_some (hincall h0 hh0)
      have hm0 : h0 ∈ halfedgeIdList input := mem_of_halfedge_some hhe0
      obtain ⟨fid, hfid, hb⟩ := coverage_boundaryOf inv hm0
      have hvd := ((hens fid hfid).2 h0 hb).2
      have horig : originOf input h0 = x := by
        rw [originOf, hhe0]
        dsimp only [Option.map_some', Option.getD_some]
        exact hvert0
      rw [horig] at hvd
      obtain ⟨d, hd⟩ := Option.isSome_iff_exists.mp hvd
      exact alookup_isSome_mem_keys hd
  have hedlen : s'.edgeData.length = edgeCount input := by
    have hkn : (s'.edgeData.map Prod.fst).length = s'.edgeData.length :=
      List.length_map _ _
    rw [← hkn, edgeCount]
    apply length_eq_of_nodup_mem ok.edge_nodup (List.nodup_dedup _)
    intro x
    rw [List.mem_dedup]
    constructor
    · intro hx
      obtain ⟨p, hp, rfl⟩ := List.mem_map.mp hx
      obtain ⟨hpk, hpm, -⟩ := ok.edge_sound p hp
      refine List.mem_map.mpr ⟨p.1, hpm, ?_⟩
      rw [canonOf, hpk]
      rfl
    · intro hx
      obtain ⟨h, hh, rfl⟩ := List.mem_map.mp hx
      obtain ⟨fid, hfid, hb⟩ := coverage_boundaryOf inv hh
      have hed := ((hens fid hfid).2 h hb).1
      obtain ⟨d, hd⟩ := Option.isSome_iff_exists.mp hed
      exact alookup_isSome_mem_keys hd
  have hcount : s'.output.vertices.length =
      input.vertices.length + edgeCount input + input.faces.length := by
    rw [ok.count, hfdlen, hedlen, hvdlen]
    omega
  exact ⟨s', hrun, ok, hout, hfdlen, hedlen, hvdlen, hcount, hfaces⟩

/-- Four pairwise distinct ids in `[1, n]` force `4 ≤ n`. -/
lemma four_distinct_le {a b c d n : Nat}
    (ha : 1 ≤ a ∧ a ≤ n) (hb : 1 ≤ b ∧ b ≤ n) (hc : 1 ≤ c ∧ c ≤ n)
    (hd : 1 ≤ d ∧ d ≤ n) (hab : a ≠ b) (hac : a ≠ c) (had : a ≠ d)
    (hbc : b ≠ c) (hbd : b ≠ d) (hcd : c ≠ d) : 4 ≤ n := by
  have hsub : ({a, b, c, d} : Finset Nat) ⊆ Finset.Icc 1 n := by
    intro x hx
    simp only [Finset.mem_insert, Finset.mem_singleton] at hx
    rw [Finset.mem_Icc]
    rcases hx with rfl | rfl | rfl | rfl
    · exact ha
    · exact hb
    · exact hc
    · exact hd
  have hcard : ({a, b, c, d} : Finset Nat).card = 4 := by
    rw [Finset.card_insert_of_not_mem (by simp [hab, hac, had]),
      Finset.card_insert_of_not_mem (by simp [hbc, hbd]),
      Finset.card_insert_of_not_mem (by simp [hcd]),
      Finset.card_singleton]
  have := Finset.card_le_card hsub
  rw [hcard, Nat.card_Icc] at this
  omega

/-- A generated quad's boundary walk materializes to exactly 4 halfedges,
each bounding the face. -/
lemma quadOK_boundary {m : Mesh} {fid : Nat} (h : QuadOK m fid) :
    ∃ f L, m.face fid = some f ∧ faceHalfedgeList m f.halfedge = some L ∧
      L.length = 4 ∧ ∀ x ∈ L, ∃ he, m.halfedge x = some he ∧ he.face = fid := by
  obtain ⟨f, he1, he2, he3, he4, hf0, hl1, hl2, hl3, hl4, hcyc, hf1, hf2, hf3, hf4,
    d1, d2, d3, d4, d5, d6⟩ := h
  have b1 : 1 ≤ f.halfedge ∧ f.halfedge ≤ m.halfedges.length := by
    have := mem_of_halfedge_some hl1
    rw [mem_halfedgeIdList] at this
    exact this
  have b2 : 1 ≤ he1.next ∧ he1.next ≤ m.halfedges.length := by
    have := mem_of_halfedge_some hl2
    rw [mem_halfedgeIdList] at this
    exact this
  have b3 : 1 ≤ he2.next ∧ he2.next ≤ m.halfedges.length := by
    have := mem_of_halfedge_some hl3
    rw [mem_halfedgeIdList] at this
    exact this
  have b4 : 1 ≤ he3.next ∧ he3.next ≤ m.halfedges.length := by
    have := mem_of_halfedge_some hl4
    rw [mem_halfedgeIdList] at this
    exact this
  have hlen : 4 ≤ m.halfedges.length :=
    four_distinct_le b1 b2 b3 b4 (Ne.symm d1) (Ne.symm d2) (Ne.symm d3) d4 d5 d6
  have hwalk := faceHalfedgeList_quad hl1 hl2 hl3 hl4 rfl rfl rfl hcyc d1 d2 d3 hlen
  refine ⟨f, [f.halfedge, he1.next, he2.next, he3.next], hf0, hwalk, rfl, ?_⟩
  intro x hx
  simp only [List.mem_cons, List.not_mem_nil, or_false] at hx
  rcases hx with rfl | rfl | rfl | rfl
  · exact ⟨he1, hl1, hf1⟩
  · exact ⟨he2, hl2, hf2⟩
  · exact ⟨he3, hl3, hf3⟩
  · exact ⟨he4, hl4, hf4⟩

/-- Summing a constant function over a list. -/
lemma sum_map_const {l : List Nat} {f : Nat → Nat} {c : Nat}
    (h : ∀ x ∈ l, f x = c) : (l.map f).sum = c * l.length := by
  induction l with
  | nil => simp
  | cons a rest ih =>
    rw [List.map_cons, List.sum_cons, h a (List.mem_cons_self _ _),
      ih (fun x hx => h x (List.mem_cons_of_mem _ hx)), List.length_cons]
    ring

lemma bind_none_eq {α β : Type} (f : α → Option β) :
    ((none : Option α) >>= f) = none := rfl

lemma faceCacheSound_init {input : Mesh} : FaceCacheSound input initState := by
  intro p hp
  cases hp

lemma faceCacheSound_face_data {input : Mesh} {id : Nat} {s : SubState}
    {d : FaceData} {s' : SubState} (h : face_data_mut input id s = some (d, s'))
    (hs : FaceCacheSound input s) : FaceCacheSound input s' := by
  rw [face_data_mut] at h
  cases hx : alookup s.faceData id with
  | some d0 =>
    rw [hx] at h
    injection h with h
    cases h
    exact hs
  | none =>
    rw [hx] at h
    cases hc : input.face_center id with
    | none => rw [hc] at h; cases h
    | some avg =>
      rw [hc] at h
      simp only [Option.map_some'] at h
      injection h with h
      cases h
      intro p hp
      dsimp only at hp
      rcases List.mem_cons.mp hp with rfl | hp'
      · exact hc
      · exact hs p hp'

lemma faceCacheSound_edge_data {input : Mesh} {id0 : Nat} {s : SubState}
    {d : EdgeData} {s' : SubState} (h : edge_data_mut input id0 s = some (d, s'))
    (hs : FaceCacheSound input s) : FaceCacheSound input s' := by
  rw [edge_data_mut] at h
  cases h0 : input.peek_same_halfedge id0 with
  | none => rw [h0, bind_none_eq] at h; cases h
  | some id =>
    rw [h0, bind_some_eq] at h
    cases h1 : alookup s.edgeData id with
    | some d0 =>
      rw [h1] at h
      injection h with h
      cases h
      exact hs
    | none =>
      rw [h1] at h
      dsimp only at h
      cases h2 : input.edge_center id with
      | none => rw [h2, bind_none_eq] at h; cases h
      | some mid =>
        rw [h2, bind_some_eq] at h
        cases h3 : input.halfedge id with
        | none => rw [h3, bind_none_eq] at h; cases h
        | some he =>
          rw [h3, bind_some_eq] at h
          cases h4 : input.halfedge he.opposite with
          | none => rw [h4, bind_none_eq] at h; cases h
          | some ohe =>
            rw [h4, bind_some_eq] at h
            cases h5 : input.halfedge he.next with
            | none => rw [h5, bind_none_eq] at h; cases h
            | some nhe =>
              rw [h5, bind_some_eq] at h
              cases h6 : input.vertex he.vertex with
              | none => rw [h6, bind_none_eq] at h; cases h
              | some sv =>
                rw [h6, bind_some_eq] at h
                cases h7 : input.vertex nhe.vertex with
                | none => rw [h7, bind_none_eq] at h; cases h
                | some tv =>
                  rw [h7, bind_some_eq] at h
                  cases h8 : face_data_mut input he.face s with
                  | none => rw [h8, bind_none_eq] at h; cases h
                  | some r1 =>
                    rw [h8, bind_some_eq] at h
                    cases h9 : face_data_mut input ohe.face r1.2 with
                    | none => rw [h9, bind_none_eq] at h; cases h
                    | some r2 =>
                      rw [h9, bind_some_eq] at h
                      injection h with h
                      cases h
                      have hr2 : FaceCacheSound input r2.2 :=
                        faceCacheSound_face_data h9 (faceCacheSound_face_data h8 hs)
                      intro p hp
                      exact hr2 p hp

lemma faceCacheSound_collect {input : Mesh} :
    ∀ (l : List Nat) (fas ems : List Point3) (s : SubState)
      (r : List Point3 × List Point3 × SubState),
      collectVertexData input l fas ems s = some r →
      FaceCacheSound input s → FaceCacheSound input r.2.2 := by
  intro l
  induction l with
  | nil =>
    intro fas ems s r h hs
    rw [collectVertexData] at h
    injection h with h
    cases h
    exact hs
  | cons hid rest ih =>
    intro fas ems s r h hs
    rw [collectVertexData] at h
    cases h1 : input.halfedge hid with
    | none => rw [h1, bind_none_eq] at h; cases h
    | some he =>
      rw [h1, bind_some_eq] at h
      cases h2 : face_data_mut input he.face s with
      | none => rw [h2, bind_none_eq] at h; cases h
      | some r1 =>
        rw [h2, bind_some_eq] at h
        cases h3 : edge_data_mut input hid r1.2 with
        | none => rw [h3, bind_none_eq] at h; cases h
        | some r2 =>
          rw [h3, bind_some_eq] at h
          exact ih _ _ _ _ h
            (faceCacheSound_edge_data h3 (faceCacheSound_face_data h2 hs))

lemma faceCacheSound_vertex_data {input : Mesh} {id : Nat} {s : SubState}
    {d : VertexData} {s' : SubState}
    (h : vertex_data_mut input id s = some (d, s'))
    (hs : FaceCacheSound input s) : FaceCacheSound input s' := by
  rw [vertex_data_mut] at h
  cases hx : alookup s.vertexData id with
  | some d0 =>
    rw [hx] at h
    injection h with h
    cases h
    exact hs
  | none =>
    rw [hx] at h
    cases h1 : input.vertex id with
    | none => rw [h1, bind_none_eq] at h; cases h
    | some v =>
      rw [h1, bind_some_eq] at h
      cases h2 : collectVertexData input v.halfedges [] [] s with
      | none => rw [h2, bind_none_eq] at h; cases h
      | some r =>
        rw [h2, bind_some_eq] at h
        injection h with h
        cases h
        have hr : FaceCacheSound input r.2.2 :=
          faceCacheSound_collect _ _ _ _ _ h2 hs
        intro p hp
        exact hr p hp

lemma addQuad_faceData {s : SubState} {v1 v2 v3 v4 : Nat} {s' : SubState}
    (h : addQuad s v1 v2 v3 v4 = some s') : s'.faceData = s.faceData := by
  rw [addQuad] at h
  cases h1 : registerCorner (s.output.add_face.1.add_halfedge.1.add_halfedge.1.add_halfedge.1.add_halfedge.1)
      s.output.add_face.2 s.output.add_face.1.add_halfedge.2 v1 with
  | none => rw [h1, bind_none_eq] at h; cases h
  | some o1 =>
    rw [h1, bind_some_eq] at h
    cases h2 : registerCorner o1 s.output.add_face.2
        s.output.add_face.1.add_halfedge.1.add_halfedge.2 v2 with
    | none => rw [h2, bind_none_eq] at h; cases h
    | some o2 =>
      rw [h2, bind_some_eq] at h
      cases h3 : registerCorner o2 s.output.add_face.2
          s.output.add_face.1.add_halfedge.1.add_halfedge.1.add_halfedge.2 v3 with
      | none => rw [h3, bind_none_eq] at h; cases h
      | some o3 =>
        rw [h3, bind_some_eq] at h
        cases h4 : registerCorner o3 s.output.add_face.2
            s.output.add_face.1.add_halfedge.1.add_halfedge.1.add_halfedge.1.add_halfedge.2 v4 with
        | none => rw [h4, bind_none_eq] at h; cases h
        | some o4 =>
          rw [h4, bind_some_eq] at h
          cases h5 : wireQuad o4 s.output.add_face.2
              s.output.add_face.1.add_halfedge.2
              s.output.add_face.1.add_halfedge.1.add_halfedge.2
              s.output.add_face.1.add_halfedge.1.add_halfedge.1.add_halfedge.2
              s.output.add_face.1.add_halfedge.1.add_halfedge.1.add_halfedge.1.add_halfedge.2 with
          | none => rw [h5, bind_none_eq] at h; cases h
          | some o5 =>
            rw [h5, bind_some_eq] at h
            injection h with h
            cases h
            rfl

lemma faceCacheSound_processCorner {input : Mesh} {fvid hid : Nat}
    {s s' : SubState} (h : processCorner input fvid hid s = some s')
    (hs : FaceCacheSound input s) : FaceCacheSound input s' := by
  rw [processCorner] at h
  cases h1 : input.halfedge hid with
  | none => rw [h1, bind_none_eq] at h; cases h
  | some he =>
    rw [h1, bind_some_eq] at h
    cases h2 : input.halfedge he.next with
    | none => rw [h2, bind_none_eq] at h; cases h
    | some nhe =>
      rw [h2, bind_some_eq] at h
      cases h3 : edge_data_mut input hid s with
      | none => rw [h3, bind_none_eq] at h; cases h
      | some re1 =>
        rw [h3, bind_some_eq] at h
        cases h4 : edge_data_mut input he.next re1.2 with
        | none => rw [h4, bind_none_eq] at h; cases h
        | some re2 =>
          rw [h4, bind_some_eq] at h
          cases h5 : vertex_data_mut input nhe.vertex re2.2 with
          | none => rw [h5, bind_none_eq] at h; cases h
          | some rv =>
            rw [h5, bind_some_eq] at h
            have hrv : FaceCacheSound input rv.2 :=
              faceCacheSound_vertex_data h5
                (faceCacheSound_edge_data h4 (faceCacheSound_edge_data h3 hs))
            intro p hp
            rw [addQuad_faceData h] at hp
            exact hrv p hp

lemma faceCacheSound_processCorners {input : Mesh} {fvid : Nat} :
    ∀ (L : List Nat) (s s' : SubState),
      processCorners input fvid L s = some s' →
      FaceCacheSound input s → FaceCacheSound input s' := by
  intro L
  induction L with
  | nil =>
    intro s s' h hs
    rw [processCorners] at h
    injection h with h
    cases h
    exact hs
  | cons hid rest ih =>
    intro s s' h hs
    rw [processCorners] at h
    cases h1 : processCorner input fvid hid s with
    | none => rw [h1, bind_none_eq] at h; cases h
    | some s1 =>
      rw [h1, bind_some_eq] at h
      exact ih _ _ h (faceCacheSound_processCorner h1 hs)

lemma faceCacheSound_processFace {input : Mesh} {fid : Nat} {s s' : SubState}
    (h : processFace input fid s = some s')
    (hs : FaceCacheSound input s) : FaceCacheSound input s' := by
  rw [processFace] at h
  cases h1 : face_data_mut input fid s with
  | none => rw [h1, bind_none_eq] at h; cases h
  | some rf =>
    rw [h1, bind_some_eq] at h
    cases h2 : input.face fid with
    | none => rw [h2, bind_none_eq] at h; cases h
    | some f =>
      rw [h2, bind_some_eq] at h
      cases h3 : faceHalfedgeList input f.halfedge with
      | none => rw [h3, bind_none_eq] at h; cases h
      | some L =>
        rw [h3, bind_some_eq] at h
        exact faceCacheSound_processCorners _ _ _ h (faceCacheSound_face_data h1 hs)

/-- If the face cache is sound and some face id in the worklist has no
computable face center, the outer loop of `generate` fails: either an
earlier face already aborted, or control reaches that face and its
`face_data_mut` call fails (it cannot be a cache hit, by soundness). -/
lemma processFaces_abort {input : Mesh} {fid : Nat}
    (hfail : input.face_center fid = none) :
    ∀ (l : List Nat) (s : SubState), fid ∈ l → FaceCacheSound input s →
      processFaces input l s = none := by
  intro l
  induction l with
  | nil => intro s hmem _; cases hmem
  | cons x rest ih =>
    intro s hmem hs
    rw [processFaces]
    cases hx : processFace input x s with
    | none => rw [bind_none_eq]
    | some s1 =>
      rw [bind_some_eq]
      rcases List.mem_cons.mp hmem with rfl | hmem'
      · exfalso
        rw [processFace] at hx
        cases hfd : face_data_mut input fid s with
        | none => rw [hfd, bind_none_eq] at hx; cases hx
        | some r =>
          rw [face_data_mut] at hfd
          cases hl : alookup s.faceData fid with
          | some d0 =>
            have := hs _ (alookup_some_mem hl)
            dsimp only at this
            rw [hfail] at this
            cases this
          | none =>
            rw [hl, hfail] at hfd
            cases hfd
      · exact ih s1 hmem' (faceCacheSound_processFace hx hs)

/-- A live origin vertex for every halfedge of a generated output mesh. -/
lemma outMeshOK_origin_live {out : Mesh} (hok : OutMeshOK out) {h : Nat}
    {he : Halfedge} (hhe : out.halfedge h = some he) :
    ∃ v, out.vertex he.vertex = some v := by
  apply vertex_some_of_mem
  rw [mem_vertexIdList]
  exact hok.hvlive _ _ hhe

/-- `face_center` succeeds on every live face of a generated output mesh. -/
lemma outMeshOK_face_center_some {out : Mesh} (hok : OutMeshOK out) {fid : Nat}
    (hmem : fid ∈ faceIdList out) : ∃ c, out.face_center fid = some c := by
  obtain ⟨f, L, hface, hlist, -, hall⟩ := quadOK_boundary (hok.quad fid hmem)
  have hall' : ∀ h ∈ L, ∃ p, (do
      let he ← out.halfedge h
      let v ← out.vertex he.vertex
      pure v.position : Option Point3) = some p := by
    intro h hh
    obtain ⟨he, hhe, -⟩ := hall h hh
    obtain ⟨v, hv⟩ := outMeshOK_origin_live hok hhe
    exact ⟨v.position, by rw [hhe, bind_some_eq, hv, bind_some_eq, pure_eq_some]⟩
  obtain ⟨ps, hps, -⟩ := mapM_option_some _ L hall'
  refine ⟨Point3.centroid ps, ?_⟩
  rw [Mesh.face_center, hface, bind_some_eq, hlist, bind_some_eq, hps,
    bind_some_eq, pure_eq_some]

/-- A generated output mesh with at least one face cannot be subdivided
again: every opposite field is the dead id `0`, so the very first
`edge_data_mut` call of the second pass fails on the
`input.halfedge(he.opposite)` lookup. -/
lemma outMeshOK_generate_none {out : Mesh} (hok : OutMeshOK out)
    (hne : 1 ≤ out.faces.length) : generate out = none := by
  have hmem1 : (1 : Nat) ∈ faceIdList out := mem_faceIdList.mpr ⟨le_refl 1, hne⟩
  obtain ⟨f, he1, he2, he3, he4, hface, hl1, hl2, hl3, hl4, hcyc, hf1, hf2, hf3, hf4,
    d1, d2, d3, d4, d5, d6⟩ := hok.quad 1 hmem1
  have b1 : 1 ≤ f.halfedge ∧ f.halfedge ≤ out.halfedges.length :=
    mem_halfedgeIdList.mp (mem_of_halfedge_some hl1)
  have b2 : 1 ≤ he1.next ∧ he1.next ≤ out.halfedges.length :=
    mem_halfedgeIdList.mp (mem_of_halfedge_some hl2)
  have b3 : 1 ≤ he2.next ∧ he2.next ≤ out.halfedges.length :=
    mem_halfedgeIdList.mp (mem_of_halfedge_some hl3)
  have b4 : 1 ≤ he3.next ∧ he3.next ≤ out.halfedges.length :=
    mem_halfedgeIdList.mp (mem_of_halfedge_some hl4)
  have hlen : 4 ≤ out.halfedges.length :=
    four_distinct_le b1 b2 b3 b4 (Ne.symm d1) (Ne.symm d2) (Ne.symm d3) d4 d5 d6
  have hwalk := faceHalfedgeList_quad hl1 hl2 hl3 hl4 rfl rfl rfl hcyc d1 d2 d3 hlen
  obtain ⟨c, hc⟩ := outMeshOK_face_center_some hok hmem1
  have hhit : alookup initState.faceData 1 = none := rfl
  have hfd : face_data_mut out 1 initState =
      some (⟨c, (initState.output.add_vertex c).2⟩,
        { initState with
            faceData := (1, ⟨c, (initState.output.add_vertex c).2⟩) :: initState.faceData,
            output := (initState.output.add_vertex c).1 }) := by
    rw [face_data_mut, hhit, hc, Option.map_some']
  have hop1 : he1.opposite = 0 := hok.opp0 _ _ hl1
  have hpeek : out.peek_same_halfedge f.halfedge = some f.halfedge := by
    rw [Mesh.peek_same_halfedge, hl1, Option.map_some', hop1, halfedge_zero]
  obtain ⟨v1, hv1⟩ := outMeshOK_origin_live hok hl1
  obtain ⟨v2, hv2⟩ := outMeshOK_origin_live hok hl2
  have hec : out.edge_center f.halfedge = some (Point3.mid v1.position v2.position) := by
    rw [Mesh.edge_center, hl1, bind_some_eq, hl2, bind_some_eq, hv1, bind_some_eq,
      hv2, bind_some_eq, pure_eq_some]
  have hed : ∀ s : SubState, s.edgeData = [] →
      edge_data_mut out f.halfedge s = none := by
    intro s hs
    have hmiss : alookup s.edgeData f.halfedge = none := by rw [hs]; rfl
    rw [edge_data_mut, hpeek, bind_some_eq, hmiss]
    dsimp only
    rw [hec, bind_some_eq, hl1, bind_some_eq, hop1, halfedge_zero, bind_none_eq]
  have hpc : ∀ s : SubState, s.edgeData = [] → ∀ gid,
      processCorner out gid f.halfedge s = none := by
    intro s hs gid
    rw [processCorner, hl1, bind_some_eq, hl2, bind_some_eq, hed s hs, bind_none_eq]
  have hpf : processFace out 1 initState = none := by
    rw [processFace, hfd, bind_some_eq, hface, bind_some_eq, hwalk, bind_some_eq,
      processCorners, hpc _ rfl _, bind_none_eq]
  have hfl : ∃ rest, faceIdList out = 1 :: rest := by
    obtain ⟨k, hk⟩ : ∃ k, out.faces.length = k + 1 := ⟨out.faces.length - 1, by omega⟩
    refine ⟨(List.range k).map (fun i => i + 1 + 1), ?_⟩
    rw [faceIdList, hk, List.range_succ_eq_map, List.map_cons, List.map_map]
    rfl
  obtain ⟨rest, hrest⟩ := hfl
  rw [generate, generateState, hrest, processFaces, hpf, bind_none_eq]
  rfl

/-- On an all-quad mesh the halfedge count is four times the face count. -/
lemma allQuads_halfedges {m : Mesh} (inv : Invariants m) (hq : AllQuads m) :
    m.halfedges.length = 4 * m.faces.length := by
  rw [← boundary_degree_sum inv]
  have hconst : ∀ fid ∈ faceIdList m, boundaryLen m fid = 4 := by
    intro fid hfid
    obtain ⟨f, hface, h2⟩ := optP_some (hq fid hfid)
    obtain ⟨L, hlist, hlen⟩ := optP_some h2
    rw [boundaryLen, boundaryOf, hface, Option.some_bind, hlist, Option.getD_some]
    exact hlen
  rw [sum_map_const hconst, faceIdList, List.length_map, List.length_range]

/-! ## Claim theorems -/

/-- C1: for every input mesh satisfying the §3 invariants with `V` vertices,
`E` edges, `F` faces and `H` halfedges, `subdivide` returns a mesh with
exactly `V + E + F` vertices and exactly `H` faces, every one of whose faces
has exactly 4 boundary halfedges.  The counts are fixed functions of the
input counts alone — each cache emits exactly one output vertex per distinct
input-entity id — hence independent of traversal order. -/
theorem subdivide_counts {m : Mesh} (inv : Invariants m) :
    ∃ out, m.subdivide = some out ∧
      out.vertex_count = m.vertex_count + edgeCount m + m.face_count ∧
      out.face_count = m.halfedge_count ∧
      ∀ fid ∈ faceIdList out, ∃ f L, out.face fid = some f ∧
        faceHalfedgeList out f.halfedge = some L ∧ L.length = 4 := by
  obtain ⟨s', hrun, -, hout, -, -, -, hv, hf⟩ := generate_master inv
  refine ⟨s'.output, ?_, hv, hf, ?_⟩
  · rw [Mesh.subdivide, generate, hrun]
    rfl
  · intro fid hfid
    obtain ⟨f, L, h1, h2, h3, -⟩ := quadOK_boundary (hout.quad fid hfid)
    exact ⟨f, L, h1, h2, h3⟩

theorem subdivide_counts_witness :
    ∃ out, triFixture.subdivide = some out ∧
      out.vertex_count =
        triFixture.vertex_count + edgeCount triFixture + triFixture.face_count ∧
      out.face_count = triFixture.halfedge_count ∧
      ∀ fid ∈ faceIdList out, ∃ f L, out.face fid = some f ∧
        faceHalfedgeList out f.halfedge = some L ∧ L.length = 4 :=
  subdivide_counts (by decide)

/-- C2: on a cache miss for a live input vertex, `vertex_data_mut` adds
exactly one entry to the vertex-point cache and exactly one output vertex,
positioned by the interior rule `(2*E + F + P*|n-3|)/n` with `n` the valence,
`F` the centroid of the adjacent face points, `E` the centroid of the raw
edge midpoints and `P` the original position (`vertexPointFormula` states
that rule directly over the input mesh). -/
theorem vertex_point_rule {input : Mesh} {s : SubState} {vid : Nat}
    (inv : Invariants input) (ok : CacheOK input s)
    (hmem : vid ∈ vertexIdList input)
    (hmiss : alookup s.vertexData vid = none) :
    ∃ d s', vertex_data_mut input vid s = some (d, s') ∧
      s'.vertexData = (vid, d) :: s.vertexData ∧
      s'.output.vertex d.generated_vertex_id =
        some ⟨vertexPointFormula input vid, []⟩ := by
  obtain ⟨d, s', h1, -, -, h4, -, h6, -⟩ := vertex_data_mut_miss_spec inv ok hmem hmiss
  exact ⟨d, s', h1, h4, h6⟩

theorem vertex_point_rule_witness :
    ∃ d s', vertex_data_mut triFixture 1 initState = some (d, s') ∧
      s'.vertexData = (1, d) :: initState.vertexData ∧
      s'.output.vertex d.generated_vertex_id =
        some ⟨vertexPointFormula triFixture 1, []⟩ :=
  vertex_point_rule (by decide) (cacheOK_init triFixture) (by decide) rfl

/-- C3: on a cache miss for the canonical id of a live halfedge's edge,
`edge_data_mut` adds exactly one cache entry and exactly one output vertex,
positioned at the centroid of the two adjacent face points and the two
endpoint positions (`edgePointFormula` states that rule directly), stores the
edge's plain midpoint (`edge_center`) alongside the generated vertex id, and
both adjacent face points are present in the face cache afterwards (computed
first if absent). -/
theorem edge_point_rule {input : Mesh} {s : SubState} {hid : Nat} {he0 : Halfedge}
    (inv : Invariants input) (ok : CacheOK input s)
    (hhe0 : input.halfedge hid = some he0)
    (hmiss : alookup s.edgeData (min hid he0.opposite) = none) :
    ∃ d s', edge_data_mut input hid s = some (d, s') ∧
      s'.edgeData = (min hid he0.opposite, d) :: s.edgeData ∧
      input.edge_center (min hid he0.opposite) = some d.mid_point ∧
      s'.output.vertex d.generated_vertex_id =
        some ⟨edgePointFormula input (min hid he0.opposite), []⟩ ∧
      ∀ hee, input.halfedge (min hid he0.opposite) = some hee →
        (∃ dd, alookup s'.faceData hee.face = some dd) ∧
        ∀ ohee, input.halfedge hee.opposite = some ohee →
          ∃ dd, alookup s'.faceData ohee.face = some dd := by
  obtain ⟨d, s', h1, -, -, -, h5, h6, h7, -, -, -, -, h12⟩ :=
    edge_data_mut_miss_spec inv ok hhe0 hmiss
  exact ⟨d, s', h1, h5, h6, h7, h12⟩

theorem edge_point_rule_witness :
    ∃ d s', edge_data_mut triFixture 1 initState = some (d, s') ∧
      s'.edgeData = (min 1 (Halfedge.mk 1 1 2 1).opposite, d) :: initState.edgeData ∧
      triFixture.edge_center (min 1 (Halfedge.mk 1 1 2 1).opposite) = some d.mid_point ∧
      s'.output.vertex d.generated_vertex_id =
        some ⟨edgePointFormula triFixture (min 1 (Halfedge.mk 1 1 2 1).opposite), []⟩ ∧
      ∀ hee, triFixture.halfedge (min 1 (Halfedge.mk 1 1 2 1).opposite) = some hee →
        (∃ dd, alookup s'.faceData hee.face = some dd) ∧
        ∀ ohee, triFixture.halfedge hee.opposite = some ohee →
          ∃ dd, alookup s'.faceData ohee.face = some dd :=
  edge_point_rule (by decide) (cacheOK_init triFixture) rfl rfl

/-- C4: face-point and edge-point computation is idempotent.  A cache hit
returns the stored datum — including the generated output-vertex id —
without touching the state, so every query after the first returns the
identical id and performs no recomputation and no vertex insertion; and over
a full run the caches hold exactly one entry per distinct input face id and
per distinct canonical edge id, so exactly one output vertex is emitted per
input face and per input edge (output vertex count `V + E + F`). -/
theorem cache_idempotent :
    (∀ (input : Mesh) (fid : Nat) (s : SubState) (d : FaceData),
      alookup s.faceData fid = some d → face_data_mut input fid s = some (d, s)) ∧
    (∀ (input : Mesh) (hid c : Nat) (s : SubState) (d : EdgeData),
      input.peek_same_halfedge hid = some c → alookup s.edgeData c = some d →
      edge_data_mut input hid s = some (d, s)) ∧
    (∀ input : Mesh, Invariants input →
      ∃ s', generateState input = some s' ∧
        (s'.faceData.map Prod.fst).Nodup ∧ (s'.edgeData.map Prod.fst).Nodup ∧
        s'.faceData.length = input.faces.length ∧
        s'.edgeData.length = edgeCount input ∧
        s'.output.vertices.length =
          input.vertices.length + edgeCount input + input.faces.length) := by
  refine ⟨?_, ?_, ?_⟩
  · intro input fid s d h
    rw [face_data_mut, h]
  · intro input hid c s d hpeek hhit
    rw [edge_data_mut, hpeek, bind_some_eq, hhit]
    rfl
  · intro input inv
    obtain ⟨s', hrun, ok, -, hfd, hed, -, hv, -⟩ := generate_master inv
    exact ⟨s', hrun, ok.face_nodup, ok.edge_nodup, hfd, hed, hv⟩

theorem cache_idempotent_witness :
    face_data_mut triFixture 1
        ⟨[(1, ⟨Point3.zero, 1⟩)], [], [], ⟨[], [], []⟩⟩ =
      some (⟨Point3.zero, 1⟩, ⟨[(1, ⟨Point3.zero, 1⟩)], [], [], ⟨[], [], []⟩⟩) ∧
    edge_data_mut triFixture 1
        ⟨[], [(1, ⟨Point3.zero, 2⟩)], [], ⟨[], [], []⟩⟩ =
      some (⟨Point3.zero, 2⟩, ⟨[], [(1, ⟨Point3.zero, 2⟩)], [], ⟨[], [], []⟩⟩) ∧
    ∃ s', generateState triFixture = some s' ∧
      (s'.faceData.map Prod.fst).Nodup ∧ (s'.edgeData.map Prod.fst).Nodup ∧
      s'.faceData.length = triFixture.faces.length ∧
      s'.edgeData.length = edgeCount triFixture ∧
      s'.output.vertices.length =
        triFixture.vertices.length + edgeCount triFixture + triFixture.faces.length :=
  ⟨cache_idempotent.1 triFixture 1 _ _ rfl,
   cache_idempotent.2.1 triFixture 1 1 _ _ (by decide) rfl,
   cache_idempotent.2.2 triFixture (by decide)⟩

/-- C5: requesting the edge point via a halfedge and via its opposite twin
gives identical results — in particular the identical generated
output-vertex id — because `peek_same_halfedge` canonicalizes both directed
halfedges of an involutive pair to the same representative cache key
`min h he.opposite`. -/
theorem edge_point_opposite_id {m : Mesh} {h : Nat} {he ohe : Halfedge}
    (hhe : m.halfedge h = some he) (hohe : m.halfedge he.opposite = some ohe)
    (hback : ohe.opposite = h) (s : SubState) :
    edge_data_mut m he.opposite s = edge_data_mut m h s := by
  have hp1 : m.peek_same_halfedge h = some (min h he.opposite) := peek_eq_min hhe hohe
  have hp2 : m.peek_same_halfedge he.opposite = some (min he.opposite h) := by
    have hh' : m.halfedge ohe.opposite = some he := by rw [hback]; exact hhe
    have := peek_eq_min hohe hh'
    rw [hback] at this
    exact this
  rw [edge_data_mut, edge_data_mut, hp1, hp2, Nat.min_comm]

theorem edge_point_opposite_id_witness :
    edge_data_mut pillowFixture (Halfedge.mk 1 1 2 8).opposite initState =
      edge_data_mut pillowFixture 1 initState :=
  @edge_point_opposite_id pillowFixture 1 ⟨1,1,2,8⟩ ⟨2,2,5,1⟩ rfl rfl rfl initState

/-- C6 (counterexample): the claimed rule "each subdivision level multiplies
the face count by 4, hence x16 over two levels" fails.  The single-triangle
fixture satisfies the invariants, yet one subdivision yields 3 faces (one
quad per corner, not 4x1), and a second subdivision fails outright (the
first pass never assigns opposite links), so no x16 mesh exists. -/
theorem subdivide_sixteen_cex :
    Invariants triFixture ∧ triFixture.face_count = 1 ∧
    (triFixture.subdivide).map Mesh.face_count = some 3 ∧
    ((triFixture.subdivide).bind Mesh.subdivide).map Mesh.face_count = none ∧
    ¬ (triFixture.subdivide).map Mesh.face_count =
        some (4 * triFixture.face_count) := by decide

/-- C6 (amended): the 4x-per-level rule holds for one level exactly on
all-quad inputs — each input face of degree `n` yields `n` quads, so a quad
mesh quadruples its face count — but no second direct level exists: the
output mesh never has its opposite fields assigned, so subdividing the
result fails. -/
theorem subdivide_quadruples_once_then_aborts {m : Mesh} (inv : Invariants m)
    (hq : AllQuads m) (hne : 1 ≤ m.face_count) :
    ∃ out, m.subdivide = some out ∧ out.face_count = 4 * m.face_count ∧
      out.subdivide = none := by
  obtain ⟨s', hrun, -, hout, -, -, -, -, hf⟩ := generate_master inv
  have hfc : s'.output.faces.length = 4 * m.faces.length := by
    rw [hf, allQuads_halfedges inv hq]
  refine ⟨s'.output, ?_, hfc, ?_⟩
  · rw [Mesh.subdivide, generate, hrun]
    rfl
  · have hone : 1 ≤ s'.output.faces.length := by
      have hm : 1 ≤ m.faces.length := hne
      omega
    exact outMeshOK_generate_none hout hone

theorem subdivide_quadruples_once_then_aborts_witness :
    ∃ out, pillowFixture.subdivide = some out ∧
      out.face_count = 4 * pillowFixture.face_count ∧
      out.subdivide = none :=
  subdivide_quadruples_once_then_aborts (by decide) (by decide) (by decide)

/-- C7: the mesh returned by `subdivide` satisfies the output contract:
every halfedge registered in an output vertex's incidence set has that
vertex as its origin; every output face's boundary walk returns to the
start after exactly 4 steps, and each of those 4 halfedges' face field
names the face it was created for; and — the noted single exception — the
opposite fields of all newly created halfedges are never assigned (they
keep the dead id 0). -/
theorem subdivide_output_contract {m : Mesh} (inv : Invariants m) :
    ∃ out, m.subdivide = some out ∧
      (∀ vid v, out.vertex vid = some v → ∀ h ∈ v.halfedges,
        ∃ he, out.halfedge h = some he ∧ he.vertex = vid) ∧
      (∀ fid ∈ faceIdList out, ∃ f L, out.face fid = some f ∧
        faceHalfedgeList out f.halfedge = some L ∧ L.length = 4 ∧
        ∀ x ∈ L, ∃ he, out.halfedge x = some he ∧ he.face = fid) ∧
      (∀ i he, out.halfedge i = some he → he.opposite = 0) := by
  obtain ⟨s', hrun, -, hout, -, -, -, -, -⟩ := generate_master inv
  refine ⟨s'.output, ?_, hout.inc, ?_, hout.opp0⟩
  · rw [Mesh.subdivide, generate, hrun]
    rfl
  · intro fid hfid
    exact quadOK_boundary (hout.quad fid hfid)

theorem subdivide_output_contract_witness :
    ∃ out, triFixture.subdivide = some out ∧
      (∀ vid v, out.vertex vid = some v → ∀ h ∈ v.halfedges,
        ∃ he, out.halfedge h = some he ∧ he.vertex = vid) ∧
      (∀ fid ∈ faceIdList out, ∃ f L, out.face fid = some f ∧
        faceHalfedgeList out f.halfedge = some L ∧ L.length = 4 ∧
        ∀ x ∈ L, ∃ he, out.halfedge x = some he ∧ he.face = fid) ∧
      (∀ i he, out.halfedge i = some he → he.opposite = 0) :=
  subdivide_output_contract (by decide)

/-- C8: the single-triangle fixture (3 vertices, 3 edges, 1 face) satisfies
the invariants and subdivides into exactly 7 = 3+3+1 vertices and exactly 3
faces, all of them quads. -/
theorem single_triangle_fixture :
    Invariants triFixture ∧
    triFixture.vertex_count = 3 ∧ edgeCount triFixture = 3 ∧
    triFixture.face_count = 1 ∧
    optP triFixture.subdivide (fun out =>
      out.vertex_count = 7 ∧ out.face_count = 3 ∧ AllQuads out) := by decide

/-- C9: an id lookup that does not address a live entity aborts the entire
subdivision call: if any input face's face-point computation fails (dangling
representative halfedge, broken boundary cycle, or dead origin vertex all
make `face_center` fail), `subdivide` returns nothing at all — no
partial-result mesh, no recovery path.  Control either aborts before
reaching that face or reaches it with a sound face cache, and then its
`face_data_mut` call cannot be served from the cache and fails. -/
theorem lookup_failure_aborts {m : Mesh} {fid : Nat}
    (hmem : fid ∈ faceIdList m) (hfail : m.face_center fid = none) :
    m.subdivide = none := by
  rw [Mesh.subdivide, generate, generateState,
    processFaces_abort hfail (faceIdList m) initState hmem faceCacheSound_init]
  rfl

theorem lookup_failure_aborts_witness :
    danglingFixture.subdivide = none :=
  @lookup_failure_aborts danglingFixture 1 (by decide) (by decide)

/-- C10: the vertex-point computation has no emptiness guard on the valence.
For a referenced vertex with an empty incidence set, the collection loop
gathers nothing, `n = 0`, and the rule divides by the valence zero: in the
exact-rational embedding (where, as for IEEE floats, division by zero is
total) the computation still succeeds and the emitted vertex position
collapses to the zero point regardless of the vertex's original position —
the computation is well-defined only under the implicit precondition
`valence >= 1`. -/
theorem vertex_point_zero_valence {input : Mesh} {s : SubState} {vid : Nat}
    {v : Vertex} (hv : input.vertex vid = some v) (hempty : v.halfedges = [])
    (hmiss : alookup s.vertexData vid = none) :
    ∃ d s', vertex_data_mut input vid s = some (d, s') ∧
      s'.output.vertex d.generated_vertex_id = some ⟨Point3.zero, []⟩ ∧
      vertexPointFormula input vid = Point3.zero ∧
      ((v.halfedges.length : Nat) : Rat) = 0 := by
  have hcol : collectVertexData input ([] : List Nat) [] [] s = some ([], [], s) := rfl
  have hzero : ∀ p : Point3,
      (((Point3.centroid []).smul 2 + Point3.centroid [])
        + p.smul (((((0 : Nat) : Int) - 3).natAbs : Nat) : Rat)).divQ
        (((0 : Nat) : Nat) : Rat) = Point3.zero := by
    intro p
    simp [Point3.divQ, Point3.zero]
  refine ⟨⟨(s.output.add_vertex
      ((((Point3.centroid []).smul 2 + Point3.centroid [])
        + v.position.smul (((((0 : Nat) : Int) - 3).natAbs : Nat) : Rat)).divQ
        (((0 : Nat) : Nat) : Rat))).2⟩,
    { s with
        vertexData := (vid, ⟨(s.output.add_vertex
          ((((Point3.centroid []).smul 2 + Point3.centroid [])
            + v.position.smul (((((0 : Nat) : Int) - 3).natAbs : Nat) : Rat)).divQ
            (((0 : Nat) : Nat) : Rat))).2⟩) :: s.vertexData,
        output := (s.output.add_vertex
          ((((Point3.centroid []).smul 2 + Point3.centroid [])
            + v.position.smul (((((0 : Nat) : Int) - 3).natAbs : Nat) : Rat)).divQ
            (((0 : Nat) : Nat) : Rat))).1 }, ?_, ?_, ?_, ?_⟩
  · rw [vertex_data_mut, hmiss, hv, bind_some_eq, hempty, hcol, bind_some_eq]
    rfl
  · dsimp only
    rw [hzero, add_vertex_snd]
    exact add_vertex_vertex_new
  · rw [vertexPointFormula, hv]
    dsimp only
    rw [hempty]
    dsimp only [List.map_nil, List.length_nil]
    exact hzero v.position
  · rw [hempty]
    rfl

theorem vertex_point_zero_valence_witness :
    ∃ d s', vertex_data_mut isolatedVertexFixture 1 initState = some (d, s') ∧
      s'.output.vertex d.generated_vertex_id = some ⟨Point3.zero, []⟩ ∧
      vertexPointFormula isolatedVertexFixture 1 = Point3.zero ∧
      (((Vertex.mk ⟨7,0,0⟩ []).halfedges.length : Nat) : Rat) = 0 :=
  @vertex_point_zero_valence isolatedVertexFixture initState 1 ⟨⟨7,0,0⟩, []⟩ rfl rfl rfl
